import Mathlib

/-!
Verification development for the mode-decision core of the block-based video
encoder in this repository.  The relevant source units are
`source/Lib/CommonLib/UnitTools.cpp` (motion-vector candidate derivation) and
`source/Lib/EncoderLib/EncCu.cpp` (CU-tree RDO search and best-mode ledger).

The C++ is shallowly embedded: pure derivation routines become Lean functions;
lookups into surrounding picture state (neighbour PUs, collocated pictures,
reference-picture lists) are abstracted into explicit oracle records passed as
arguments, one field per distinct external query the source makes.  Machine
integers are modelled as `Int` (all quantities involved stay far below 2^31, so
no wrap-around occurs in the source ranges of interest); C++ `/` on `int` is
`Int.tdiv` (truncation toward zero) and arithmetic right shift of possibly
negative values is `Int.fdiv` by the corresponding power of two.

Preprocessor configuration embedded (the configuration header `TypeDef.h` is
not part of this repository snapshot; the branches chosen are the ones the
specification describes): `JVET_L0090_PAIR_AVG = 1` (pairwise-average
candidates, spec item 8), `HM_JEM_MERGE_CANDS = 0` (the non-extended
redundancy mode, the spec's default), `REMOVE_MV_ADAPT_PREC = 1` (no dynamic
motion-vector precision flag).  `JVET_L0646_GBI` only maintains the parallel
`GBiIdx` weight array, which never feeds any guard or motion field compared
here, and is omitted.
-/

namespace IEC

/-- Sentinel reference index `NOT_VALID` from the common definitions. -/
def NOT_VALID : Int := -1

/-- Modelled from the spec: `Clip3(min, max, a)` from `CommonDef.h` (not under
`src/`), the clip-to-bounded-range helper named by the spec's scaling rule. -/
def Clip3 (lo hi a : Int) : Int := min (max a lo) hi

/-- A motion vector, `Mv` from `Mv.h`: a pair of integer components. -/
structure Mv where
  hor : Int
  ver : Int
deriving DecidableEq, Repr

/-- Modelled from the spec: `Mv::scaleMv` (in `Mv.h/.cpp`, not under `src/`) is
the multiply-and-round step of the §4.1 scaling rule; the exact rounding does
not matter for any claim here, only that it is applied iff the scale factor
differs from the no-scaling constant. -/
def Mv.scaleMv (mv : Mv) (iScale : Int) : Mv :=
  { hor := Int.fdiv (iScale * mv.hor + 127 + (if iScale * mv.hor < 0 then 1 else 0)) 256,
    ver := Int.fdiv (iScale * mv.ver + 127 + (if iScale * mv.ver < 0 then 1 else 0)) 256 }

/-- One (motion vector, reference index) pair, `MvField` from `MvField` in
`UnitTools`-visible headers; `setMvField` writes both components. -/
structure MvField where
  mv : Mv
  refIdx : Int
deriving DecidableEq, Repr

/-- Modelled from the spec: the per-4x4 `MotionInfo` record compared by the
merge redundancy rule; §4.1 defines "motion-identical" as "same
inter-direction and same per-list (vector, refIdx) pairs", so equality of this
structure is exactly that comparison (`MotionInfo.h` is not under `src/`). -/
structure MotionInfo where
  interDir : Nat
  mv0 : Mv
  refIdx0 : Int
  mv1 : Mv
  refIdx1 : Int
deriving DecidableEq, Repr

/-! ## Temporal motion-vector scaling: `xGetDistScaleFactor` (UnitTools.cpp:1115) -/

/-- Embedding of the file-static `xGetDistScaleFactor` of `UnitTools.cpp`:
the fixed-point POC-distance ratio, `4096` when the two distances agree. -/
def xGetDistScaleFactor (iCurrPOC iCurrRefPOC iColPOC iColRefPOC : Int) : Int :=
  let iDiffPocD := iColPOC - iColRefPOC
  let iDiffPocB := iCurrPOC - iCurrRefPOC
  if iDiffPocD = iDiffPocB then
    4096
  else
    let iTDB := Clip3 (-128) 127 iDiffPocB
    let iTDD := Clip3 (-128) 127 iDiffPocD
    let iX := Int.tdiv (0x4000 + |Int.tdiv iTDD 2|) iTDD
    let iScale := Clip3 (-4096) 4095 (Int.fdiv (iTDB * iX + 32) 64)
    iScale

/-! ## `PU::getColocatedMVP` (UnitTools.cpp:1134)

The function reads the collocated picture's motion field and both slices'
reference-picture bookkeeping.  Those external queries are gathered in oracle
records `ColPicInfo` / `ColSliceInfo` / `CurSliceInfo`; reference picture
lists are represented by `0`/`1` as in the source enum. -/

/-- Value of `AMVP_DECIMATION_FACTOR` from the common definitions header (not
under `src/`); it only sets the motion-compression grid used to quantize the
probed position and affects no claim checked here. -/
def AMVP_DECIMATION_FACTOR : Nat := 4

/-- The slice-level data of the collocated slice that `getColocatedMVP`
queries: long-term marking per (list, refIdx), POC, and reference POCs. -/
structure ColSliceInfo where
  isUsedAsLongTerm : Nat → Int → Bool
  poc : Int
  refPOC : Nat → Int → Int

/-- The collocated picture: its motion field (already position-quantized
lookups go through `motionInfo`) and its slices indexed by independent slice
index.  `sliceIdx`/`isInter`/`refIdx`/`mv` mirror the colocated `MotionInfo`
fields read by the source. -/
structure ColMotionInfo where
  isInter : Bool
  sliceIdx : Nat
  refIdx : Nat → Int
  mv : Nat → Mv

/-- Oracle for the collocated picture. -/
structure ColPicInfo where
  motionInfo : Nat × Nat → ColMotionInfo
  slices : Nat → Option ColSliceInfo

/-- The current slice data read by `getColocatedMVP`: `getCheckLDC`,
`getColFromL0Flag`, the current POC, and per-(list, refIdx) reference-picture
long-term flags and POCs. -/
structure CurSliceInfo where
  checkLDC : Bool
  colFromL0Flag : Nat
  poc : Int
  refLongTerm : Nat → Int → Bool
  refPOC : Nat → Int → Int

/-- All state `PU::getColocatedMVP` consults besides its arguments:
`pcv->noMotComp` and the collocated picture selected by
`slice.getRefPic(..., slice.getColRefIdx())` (`none` when that picture is
absent). -/
structure ColInput where
  noMotComp : Bool
  slice : CurSliceInfo
  colPic : Option ColPicInfo

/-- Embedding of `PU::getColocatedMVP` (UnitTools.cpp:1134-1230).
Result: `.ok none` when the source returns `false` (candidate rejected),
`.ok (some mv)` when it returns `true` with output vector `mv`, and `.error`
for the `CHECK(pColSlice == nullptr, "Slice segment not found")` abort. -/
def getColocatedMVP (inp : ColInput) (eRefPicList : Nat) (pos : Nat × Nat)
    (refIdx : Int) : Except String (Option Mv) :=
  -- scale/mask position quantization: x & ~(scale-1) for a power-of-two scale
  let scale : Nat := if inp.noMotComp then 1 else 4 * max 1 (4 * AMVP_DECIMATION_FACTOR / 4)
  let posQ : Nat × Nat := (pos.1 - pos.1 % scale, pos.2 - pos.2 % scale)
  match inp.colPic with
  | none => .ok none
  | some colPic =>
    let eColRefPicList0 : Nat := if inp.slice.checkLDC then eRefPicList else inp.slice.colFromL0Flag
    let mi := colPic.motionInfo posQ
    if !mi.isInter then .ok none
    else
      -- if refIdx on the chosen list is invalid, examine the other list
      let eColRefPicList : Nat :=
        if mi.refIdx eColRefPicList0 < 0 then 1 - eColRefPicList0 else eColRefPicList0
      let iColRefIdx := mi.refIdx eColRefPicList
      if iColRefIdx < 0 then .ok none
      else
        match colPic.slices mi.sliceIdx with
        | none => .error "Slice segment not found"
        | some colSlice =>
          let bIsCurrRefLongTerm := inp.slice.refLongTerm eRefPicList refIdx
          let bIsColRefLongTerm := colSlice.isUsedAsLongTerm eColRefPicList iColRefIdx
          if bIsCurrRefLongTerm ≠ bIsColRefLongTerm then .ok none
          else
            let cColMv := mi.mv eColRefPicList
            if bIsCurrRefLongTerm then .ok (some cColMv)
            else
              let currPOC := inp.slice.poc
              let colPOC := colSlice.poc
              let colRefPOC := colSlice.refPOC eColRefPicList iColRefIdx
              let currRefPOC := inp.slice.refPOC eRefPicList refIdx
              let distscale := xGetDistScaleFactor currPOC currRefPOC colPOC colRefPOC
              if distscale = 4096 then .ok (some cColMv)
              else .ok (some (cColMv.scaleMv distscale))

/-- The motion-compression grid size computed at the head of
`getColocatedMVP`. -/
def colMotScale (noMotComp : Bool) : Nat :=
  if noMotComp then 1 else 4 * max 1 (4 * AMVP_DECIMATION_FACTOR / 4)

/-- The quantized lookup position `pos & mask` of `getColocatedMVP`. -/
def colQuantPos (noMotComp : Bool) (pos : Nat × Nat) : Nat × Nat :=
  (pos.1 - pos.1 % colMotScale noMotComp, pos.2 - pos.2 % colMotScale noMotComp)

/-- The collocated reference list finally used: `getCheckLDC ? eRefPicList :
colFromL0Flag`, switched to the other list when its refIdx is invalid. -/
def colSelList (slice : CurSliceInfo) (mi : ColMotionInfo) (eRefPicList : Nat) : Nat :=
  let e0 : Nat := if slice.checkLDC then eRefPicList else slice.colFromL0Flag
  if mi.refIdx e0 < 0 then 1 - e0 else e0

/-- Concrete oracle used by the claim-C4 witness: short-term references, POC
distances 4 on both sides, collocated vector (3, 4). -/
def colInputC4 : ColInput :=
  { noMotComp := true,
    slice := { checkLDC := true, colFromL0Flag := 0, poc := 8,
               refLongTerm := fun _ _ => false, refPOC := fun _ _ => 4 },
    colPic := some
      { motionInfo := fun _ =>
          { isInter := true, sliceIdx := 0, refIdx := fun _ => 0, mv := fun _ => ⟨3, 4⟩ },
        slices := fun _ => some
          { isUsedAsLongTerm := fun _ _ => false, poc := 6, refPOC := fun _ _ => 2 } } }

/-- Concrete oracle used by the claim-C5 witness: both references long-term. -/
def colInputC5 : ColInput :=
  { noMotComp := true,
    slice := { checkLDC := true, colFromL0Flag := 0, poc := 8,
               refLongTerm := fun _ _ => true, refPOC := fun _ _ => 4 },
    colPic := some
      { motionInfo := fun _ =>
          { isInter := true, sliceIdx := 0, refIdx := fun _ => 0, mv := fun _ => ⟨7, -2⟩ },
        slices := fun _ => some
          { isUsedAsLongTerm := fun _ _ => true, poc := 6, refPOC := fun _ _ => 2 } } }

/-! ## AMVP derivation: `PU::fillMvpCand` (UnitTools.cpp:1261)

Neighbour probes (`addMVPCandUnscaled` / `addMVPCandWithScaling`, lines
1778-1944) read the neighbouring PUs' motion and the reference lists; each
distinct probe the function can make is abstracted to one `Option Mv` oracle
field: `none` when the probe returns `false` (no candidate appended), `some
mv` when it appends `mv`.  The temporal probe (C0 then C1 through
`getColocatedMVP`) is likewise one `Option Mv`. -/

/-- The fixed AMVP list capacity `AMVP_MAX_NUM_CANDS`. -/
def AMVP_MAX_NUM_CANDS : Nat := 2

/-- The AMVP candidate array storage size (`AMVP_MAX_NUM_CANDS_MEM`): one
spare slot so that two spatial candidates plus the temporal candidate can be
held before truncation. -/
def AMVP_MAX_NUM_CANDS_MEM : Nat := 3

/-- Modelled from the spec: the extra motion-vector storage-precision bits
(`VCEG_AZ07_MV_ADD_PRECISION_BIT_FOR_STORE`, configuration header not under
`src/`); only its positivity shows up in the embedded arithmetic. -/
def VCEG_AZ07_MV_ADD_PRECISION_BIT_FOR_STORE : Nat := 2

/-- The AMVP candidate list: a fixed array (modelled as total function) plus
the number of valid entries. -/
structure AMVPInfo where
  mvCand : Nat → Mv
  numCand : Nat

/-- Modelled from the spec: `roundMV` (motion-vector utility not under
`src/`), rounding a vector to the signalled integer-motion precision. -/
def roundMV (mv : Mv) (imvShift : Nat) : Mv :=
  let off : Int := (2 : Int) ^ imvShift / 2
  { hor := Int.fdiv (mv.hor + off) ((2 : Int) ^ imvShift) * (2 : Int) ^ imvShift,
    ver := Int.fdiv (mv.ver + off) ((2 : Int) ^ imvShift) * (2 : Int) ^ imvShift }

/-- One component of the storage-precision down-shift of UnitTools.cpp:1434:
`v >= 0 ? (v + nOffset) >> nShift : -((-v + nOffset) >> nShift)`. -/
def storeShiftComp (v : Int) : Int :=
  let nShift : Nat := VCEG_AZ07_MV_ADD_PRECISION_BIT_FOR_STORE
  let nOffset : Int := (2 : Int) ^ (nShift - 1)
  if 0 ≤ v then Int.fdiv (v + nOffset) ((2 : Int) ^ nShift)
  else -(Int.fdiv (-v + nOffset) ((2 : Int) ^ nShift))

/-- The storage-precision down-shift applied vector-wise. -/
def storePrecShift (mv : Mv) : Mv := { hor := storeShiftComp mv.hor, ver := storeShiftComp mv.ver }

/-- Oracle for every external probe `fillMvpCand` can make, one field per
distinct (position, direction, scaled?) neighbour query plus the slice flags
it reads. -/
structure AmvpOracle where
  isScaledFlagLX : Bool
  unscaledBelowLeft : Option Mv
  unscaledLeft : Option Mv
  scaledBelowLeft : Option Mv
  scaledLeft : Option Mv
  unscaledAboveRight : Option Mv
  unscaledAbove : Option Mv
  unscaledAboveLeft : Option Mv
  scaledAboveRight : Option Mv
  scaledAbove : Option Mv
  scaledAboveLeft : Option Mv
  imv : Nat
  tmvpEnabled : Bool
  temporalMv : Option Mv

/-- Effect of one `addMVPCandUnscaled`/`addMVPCandWithScaling` call (with the
default `affine = false`): append the probed vector when the probe succeeds,
returning the source's `bAdded` flag. -/
def addCand (c : Option Mv) (info : AMVPInfo) : AMVPInfo × Bool :=
  match c with
  | none => (info, false)
  | some mv =>
    ({ info with mvCand := Function.update info.mvCand info.numCand mv,
                 numCand := info.numCand + 1 }, true)

/-- The `imv`-rounding loops of UnitTools.cpp:1349-1352 and 1446-1449, over
the first `numCand` entries. -/
def roundLoop (info : AMVPInfo) (imvShift : Nat) : AMVPInfo :=
  { info with mvCand := fun i => if i < info.numCand then roundMV (info.mvCand i) imvShift else info.mvCand i }

/-- The zero-padding while-loop of UnitTools.cpp:1415-1424, fuel-bounded by
the capacity (the loop runs at most `AMVP_MAX_NUM_CANDS` times). -/
def padTo2 : Nat → AMVPInfo → AMVPInfo
  | 0, info => info
  | fuel + 1, info =>
    if info.numCand < AMVP_MAX_NUM_CANDS then
      padTo2 fuel { info with mvCand := Function.update info.mvCand info.numCand ⟨0, 0⟩,
                              numCand := info.numCand + 1 }
    else info

/-- The fall-through probe pattern of the left/above searches: try each probe
in order, stopping after the first one that appends (the chained `bAdded`
tests of UnitTools.cpp:1292-1341). -/
def addChain (cs : List (Option Mv)) (info : AMVPInfo) : AMVPInfo :=
  match cs with
  | [] => info
  | c :: rest =>
    let s := addCand c info
    if s.2 then s.1 else addChain rest s.1

/-- Left predictor search of `fillMvpCand` (UnitTools.cpp:1292-1311), run
only when A0 or A1 is usable: unscaled below-left, unscaled left, scaled
below-left, scaled left. -/
def leftSearch (o : AmvpOracle) (info : AMVPInfo) : AMVPInfo :=
  if o.isScaledFlagLX then
    addChain [o.unscaledBelowLeft, o.unscaledLeft, o.scaledBelowLeft, o.scaledLeft] info
  else info

/-- Above predictor search (UnitTools.cpp:1313-1326): unscaled above-right,
above, above-left. -/
def aboveSearch (o : AmvpOracle) (info : AMVPInfo) : AMVPInfo :=
  addChain [o.unscaledAboveRight, o.unscaledAbove, o.unscaledAboveLeft] info

/-- Scaled above search (UnitTools.cpp:1328-1341), run only when the left
side had no usable A0/A1. -/
def scaledAboveSearch (o : AmvpOracle) (info : AMVPInfo) : AMVPInfo :=
  if !o.isScaledFlagLX then
    addChain [o.scaledAboveRight, o.scaledAbove, o.scaledAboveLeft] info
  else info

/-- First `imv` rounding pass (UnitTools.cpp:1343-1353); the shift is
`(imv << 1)` plus the storage-precision bits. -/
def imvRoundPass1 (o : AmvpOracle) (info : AMVPInfo) : AMVPInfo :=
  if o.imv ≠ 0 then roundLoop info (o.imv * 2 + VCEG_AZ07_MV_ADD_PRECISION_BIT_FOR_STORE)
  else info

/-- Duplicate removal (UnitTools.cpp:1355-1361): drop the second entry when
it equals the first. -/
def dedupStep (info : AMVPInfo) : AMVPInfo :=
  if info.numCand = 2 ∧ info.mvCand 0 = info.mvCand 1 then { info with numCand := 1 }
  else info

/-- Temporal candidate append (UnitTools.cpp:1363-1409): when TMVP is
enabled and the C0/C1 collocated probe produced a vector, append it. -/
def tmvpStep (o : AmvpOracle) (info : AMVPInfo) : AMVPInfo :=
  if o.tmvpEnabled then
    match o.temporalMv with
    | some cColMv =>
      { info with mvCand := Function.update info.mvCand info.numCand cColMv,
                  numCand := info.numCand + 1 }
    | none => info
  else info

/-- Candidate-collection phase of `PU::fillMvpCand` (UnitTools.cpp:1274-1409):
left search, above search, scaled-above fallback, `imv` rounding, duplicate
removal, temporal candidate, in source order. -/
def fillMvpCandCore (o : AmvpOracle) (pInfo : AMVPInfo) : AMVPInfo :=
  tmvpStep o (dedupStep (imvRoundPass1 o (scaledAboveSearch o (aboveSearch o (leftSearch o pInfo)))))

/-- Truncation to capacity (UnitTools.cpp:1410-1413). -/
def truncStep (info : AMVPInfo) : AMVPInfo :=
  if AMVP_MAX_NUM_CANDS < info.numCand then { info with numCand := AMVP_MAX_NUM_CANDS } else info

/-- Storage-precision down-shift over the whole candidate array
(UnitTools.cpp:1429-1439). -/
def precShiftStep (info : AMVPInfo) : AMVPInfo :=
  { info with mvCand := fun i => if i < AMVP_MAX_NUM_CANDS_MEM then storePrecShift (info.mvCand i) else info.mvCand i }

/-- Final `imv` rounding pass (UnitTools.cpp:1443-1450), shift `imv << 1`. -/
def imvRoundPass2 (o : AmvpOracle) (info : AMVPInfo) : AMVPInfo :=
  if o.imv ≠ 0 then roundLoop info (o.imv * 2) else info

/-- Finishing phase of `PU::fillMvpCand` (UnitTools.cpp:1410-1450): truncate
to capacity, zero-pad to capacity, storage-precision shift, final `imv`
rounding. -/
def fillMvpCandFinish (o : AmvpOracle) (info : AMVPInfo) : AMVPInfo :=
  imvRoundPass2 o (precShiftStep (padTo2 AMVP_MAX_NUM_CANDS (truncStep info)))

/-- Embedding of `PU::fillMvpCand` (UnitTools.cpp:1261-1460). -/
def fillMvpCand (o : AmvpOracle) (refIdx : Int) (amvpInfo : AMVPInfo) : AMVPInfo :=
  let pInfo : AMVPInfo := { amvpInfo with numCand := 0 }
  if refIdx < 0 then pInfo
  else fillMvpCandFinish o (fillMvpCandCore o pInfo)

/-! ## Affine AMVP derivation: `PU::fillAffineMvpCand` (UnitTools.cpp:1581)

The inherited-candidate loop walks the (reference list, affine neighbour)
iterations in order; each iteration that passes the direction/POC eligibility
test of line 1612 produces one rounded corner triple via
`xInheritedAffineMv`.  That per-iteration numeric output depends only on the
neighbours' stored corner motion, so the iteration sequence is abstracted as
the oracle list `inherited` of produced triples, in iteration order.  The
ordinary corner probes of the constructed phase are `Option Mv` oracle fields
exactly as for `fillMvpCand`. -/

/-- Value of `MAX_CU_DEPTH` from the common definitions (not under `src/`);
enters only as a fixed-point shift. -/
def MAX_CU_DEPTH : Nat := 7

/-- The base-2 logarithm table `g_aucLog2` (rom data not under `src/`),
defined on the power-of-two block sizes used here. -/
def g_aucLog2 (n : Nat) : Nat := Nat.log2 n

/-- Modelled from the spec: `roundAffineMv` (motion utility not under `src/`),
the round-to-nearest removal of the `MAX_CU_DEPTH` fixed-point shift. -/
def roundAffineMv (hor ver : Int) (shift : Nat) : Mv :=
  let off : Int := (2 : Int) ^ shift / 2
  { hor := Int.fdiv (hor + off) ((2 : Int) ^ shift),
    ver := Int.fdiv (ver + off) ((2 : Int) ^ shift) }

/-- Modelled from the spec: `Mv::roundMV2SignalPrecision` (not under `src/`),
rounding a stored-precision vector to the signalled motion precision. -/
def roundMV2SignalPrecision (mv : Mv) : Mv :=
  roundMV mv VCEG_AZ07_MV_ADD_PRECISION_BIT_FOR_STORE

/-- The affine AMVP list: three parallel corner arrays plus the number of
valid entries (`AffineAMVPInfo`). -/
structure AffineAMVPInfo where
  mvCandLT : Nat → Mv
  mvCandRT : Nat → Mv
  mvCandLB : Nat → Mv
  numCand : Nat

/-- Oracle for the external state `fillAffineMvpCand` reads: the eligible
inherited triples, the current block's affine model and geometry, the
ordinary corner probes, and the arbitrary contents of the uninitialized
locals the source reads before writing (`amvpInfoX.mvCand[0]` when the corner
scan found nothing, and the local `AMVPInfo` handed to the `fillMvpCand`
fall-back). -/
structure AffineAmvpOracle where
  inherited : List (Mv × Mv × Mv)
  affineType6 : Bool
  curWidth : Nat
  curHeight : Nat
  v0AboveLeft : Option Mv
  v0Above : Option Mv
  v0Left : Option Mv
  v1Above : Option Mv
  v1AboveRight : Option Mv
  v2Left : Option Mv
  v2BelowLeft : Option Mv
  undefMv : Mv
  undefAmvp : AMVPInfo

/-- Conditional insertion of a corner triple (shared shape of
UnitTools.cpp:1626-1635 and 1737-1746): insert unless the triple repeats the
first stored candidate, the comparison extent depending on the affine model. -/
def insertTriple (t6 : Bool) (m0 m1 m2 : Mv) (affi : AffineAMVPInfo) : AffineAMVPInfo :=
  if affi.numCand = 0 ∨
      (¬t6 ∧ (m0 ≠ affi.mvCandLT 0 ∨ m1 ≠ affi.mvCandRT 0)) ∨
      (t6 ∧ (m0 ≠ affi.mvCandLT 0 ∨ m1 ≠ affi.mvCandRT 0 ∨ m2 ≠ affi.mvCandLB 0)) then
    { affi with mvCandLT := Function.update affi.mvCandLT affi.numCand m0,
                mvCandRT := Function.update affi.mvCandRT affi.numCand m1,
                mvCandLB := Function.update affi.mvCandLB affi.numCand m2,
                numCand := affi.numCand + 1 }
  else affi

/-- One iteration body of the inherited-candidate loop (UnitTools.cpp:
1617-1635): round the produced triple (the bottom-left corner only under the
6-parameter model) and insert it via the redundancy-checked insertion. -/
def insertInherited (affineType6 : Bool) (t : Mv × Mv × Mv) (affi : AffineAMVPInfo) : AffineAMVPInfo :=
  insertTriple affineType6 (roundMV2SignalPrecision t.1) (roundMV2SignalPrecision t.2.1)
    (if affineType6 then roundMV2SignalPrecision t.2.2 else t.2.2) affi

/-- The inherited-candidate double loop (UnitTools.cpp:1604-1637), its two
`numCand < AMVP_MAX_NUM_CANDS` conditions folded into the iteration. -/
def inheritedLoop (affineType6 : Bool) : List (Mv × Mv × Mv) → AffineAMVPInfo → AffineAMVPInfo
  | [], affi => affi
  | t :: ts, affi =>
    if affi.numCand < AMVP_MAX_NUM_CANDS then
      inheritedLoop affineType6 ts (insertInherited affineType6 t affi)
    else affi

/-- The storage-precision down-shift loop over the first `numCand` affine
entries (UnitTools.cpp:1642-1650 and 1749-1757). -/
def affinePrecShift (affi : AffineAMVPInfo) : AffineAMVPInfo :=
  { affi with
    mvCandLT := fun i => if i < affi.numCand then storePrecShift (affi.mvCandLT i) else affi.mvCandLT i,
    mvCandRT := fun i => if i < affi.numCand then storePrecShift (affi.mvCandRT i) else affi.mvCandRT i,
    mvCandLB := fun i => if i < affi.numCand then storePrecShift (affi.mvCandLB i) else affi.mvCandLB i }

/-- The fall-back append loop (UnitTools.cpp:1765-1774): copy the first
`iAdd` ordinary AMVP candidates to all three corners. -/
def affineFallbackAppend (amvp : AMVPInfo) : Nat → Nat → AffineAMVPInfo → AffineAMVPInfo
  | _, 0, affi => affi
  | i, iAdd + 1, affi =>
    affineFallbackAppend amvp (i + 1) iAdd
      { affi with mvCandLT := Function.update affi.mvCandLT affi.numCand (amvp.mvCand i),
                  mvCandRT := Function.update affi.mvCandRT affi.numCand (amvp.mvCand i),
                  mvCandLB := Function.update affi.mvCandLB affi.numCand (amvp.mvCand i),
                  numCand := affi.numCand + 1 }

/-- Corner scan and derivation of the constructed affine candidate
(UnitTools.cpp:1655-1735): the three per-corner single-candidate scans, the
`cornerMVPattern` bits, and the algebraic derivation of the missing corner.
Reads only the oracle, producing `(cornerMVPattern, out0, out1, out2)`. -/
def constructedCorners (ao : AffineAmvpOracle) : Nat × Mv × Mv × Mv :=
  let empty : AMVPInfo := { mvCand := fun _ => ao.undefMv, numCand := 0 }
  -- V0: Above Left, Above, Left
  let amvpInfo0 := (addCand ao.v0AboveLeft empty).1
  let amvpInfo0 := if amvpInfo0.numCand < 1 then (addCand ao.v0Above amvpInfo0).1 else amvpInfo0
  let amvpInfo0 := if amvpInfo0.numCand < 1 then (addCand ao.v0Left amvpInfo0).1 else amvpInfo0
  -- V1: Above, Above Right
  let amvpInfo1 := (addCand ao.v1Above empty).1
  let amvpInfo1 := if amvpInfo1.numCand < 1 then (addCand ao.v1AboveRight amvpInfo1).1 else amvpInfo1
  -- V2: Left, Below Left
  let amvpInfo2 := (addCand ao.v2Left empty).1
  let amvpInfo2 := if amvpInfo2.numCand < 1 then (addCand ao.v2BelowLeft amvpInfo2).1 else amvpInfo2
  let cornerMVPattern := amvpInfo0.numCand ||| (amvpInfo1.numCand <<< 1) ||| (amvpInfo2.numCand <<< 2)
  let out0 := roundMV2SignalPrecision (amvpInfo0.mvCand 0)
  let out1 := roundMV2SignalPrecision (amvpInfo1.mvCand 0)
  let out2 := roundMV2SignalPrecision (amvpInfo2.mvCand 0)
  let shift := MAX_CU_DEPTH
  -- V0 V1 available: derive V2 for the 6-parameter model (lines 1717-1725)
  let out2 :=
    if cornerMVPattern = 3 ∧ ao.affineType6 then
      let d := shift + g_aucLog2 ao.curHeight - g_aucLog2 ao.curWidth
      let vx2 := out0.hor * 2 ^ shift - (out1.ver - out0.ver) * 2 ^ d
      let vy2 := out0.ver * 2 ^ shift + (out1.hor - out0.hor) * 2 ^ d
      roundMV2SignalPrecision (roundAffineMv vx2 vy2 shift)
    else out2
  -- V0 V2 available: derive V1 (lines 1727-1735)
  let out1 :=
    if cornerMVPattern = 5 then
      let d := shift + g_aucLog2 ao.curWidth - g_aucLog2 ao.curHeight
      let vx1 := out0.hor * 2 ^ shift + (out2.ver - out0.ver) * 2 ^ d
      let vy1 := out0.ver * 2 ^ shift - (out2.hor - out0.hor) * 2 ^ d
      roundMV2SignalPrecision (roundAffineMv vx1 vy1 shift)
    else out1
  (cornerMVPattern, out0, out1, out2)

/-- The constructed-candidate insertion (UnitTools.cpp:1715-1747): insert the
corner triple when at least two corners were found (`cornerMVPattern` 7, 3 or
5), unless it repeats the first stored candidate. -/
def constructedInsert (ao : AffineAmvpOracle) (affi : AffineAMVPInfo) : AffineAMVPInfo :=
  let c := constructedCorners ao
  if c.1 = 7 ∨ c.1 = 3 ∨ c.1 = 5 then
    insertTriple ao.affineType6 c.2.1 c.2.2.1 c.2.2.2 affi
  else affi

/-- Embedding of `PU::fillAffineMvpCand` (UnitTools.cpp:1581-1776). -/
def fillAffineMvpCand (ao : AffineAmvpOracle) (o : AmvpOracle) (refIdx : Int)
    (init : AffineAMVPInfo) : AffineAMVPInfo :=
  let affi : AffineAMVPInfo := { init with numCand := 0 }
  if refIdx < 0 then affi
  else
    -- insert inherited affine candidates (lines 1597-1637)
    let affi := inheritedLoop ao.affineType6 ao.inherited affi
    if AMVP_MAX_NUM_CANDS ≤ affi.numCand then affinePrecShift affi
    else
      -- insert constructed affine candidates (lines 1655-1747)
      let affi := constructedInsert ao affi
      let affi := affinePrecShift affi
      -- ordinary-AMVP fall-back (lines 1759-1775)
      if affi.numCand < 2 then
        let amvpInfo := fillMvpCand o refIdx ao.undefAmvp
        affineFallbackAppend amvpInfo 0 (amvpInfo.numCand - affi.numCand) affi
      else affi

/-- The visible content of a derived AMVP list: its (always
`AMVP_MAX_NUM_CANDS = 2`) retained entries. -/
def amvpList (info : AMVPInfo) : List Mv := [info.mvCand 0, info.mvCand 1]

/-- The visible content of a derived affine AMVP list: its two retained
corner triples. -/
def affineAmvpList (a : AffineAMVPInfo) : List (Mv × Mv × Mv) :=
  [(a.mvCandLT 0, a.mvCandRT 0, a.mvCandLB 0), (a.mvCandLT 1, a.mvCandRT 1, a.mvCandLB 1)]

/-- Agreement of two AMVP buffers on their meaningful prefix (same count,
same entries below it); the derivation maps agreeing buffers to agreeing
buffers, which yields the buffer-independence half of claim C6. -/
def visEq (a b : AMVPInfo) : Prop :=
  a.numCand = b.numCand ∧ ∀ i, i < a.numCand → a.mvCand i = b.mvCand i

/-- Agreement of two affine AMVP buffers on their meaningful prefix. -/
def affiVisEq (a b : AffineAMVPInfo) : Prop :=
  a.numCand = b.numCand ∧ ∀ i, i < a.numCand →
    a.mvCandLT i = b.mvCandLT i ∧ a.mvCandRT i = b.mvCandRT i ∧ a.mvCandLB i = b.mvCandLB i

/-! ## Merge candidate list: `PU::getInterMergeCandidates` (UnitTools.cpp:511-1112)

Neighbour availability (`getPURestricted`, `isDiffMER`, `CU::isInter`, the
`pu.cu !=` tests) and each available neighbour's `getMotionInfo` result are
abstracted to one `Option MotionInfo` per probed position; the sub-block
temporal derivation `getInterMergeSubPuMvpCand` (its success and the
aggregate candidate it writes at the insertion slot — per-list fields, with
cleared lists written as `(Mv(), NOT_VALID)`, and the direction bits) is one
`Option MotionInfo`; the two per-list TMVP probes (C0 then C1 through
`getColocatedMVP`, with `iRefIdx` fixed at `0`) are one `Option Mv` each.
The per-sub-block `subPuMvpMiBuf` motion buffer and the parallel `GBiIdx`
array are not modelled: neither feeds any guard, motion field or count in
this function.  Early `return`s are `Except.error` carrying the list as
returned; the merge arrays are total functions updated in place, so the
stale contents of the pooled buffers are the `mrgCtx` argument. -/

/-- Merge-type tag `MRG_TYPE_DEFAULT_N`. -/
def MRG_TYPE_DEFAULT_N : Nat := 0

/-- Merge-type tag `MRG_TYPE_SUBPU_ATMVP`. -/
def MRG_TYPE_SUBPU_ATMVP : Nat := 1

/-- The merge candidate list under construction (`MergeCtx`): direction,
motion-field (index `(cand << 1) + list`) and merge-type arrays plus
`numValidMergeCand`. -/
structure MergeCtx where
  interDirNeighbours : Nat → Nat
  mvFieldNeighbours : Nat → MvField
  mrgTypeNeighbours : Nat → Nat
  numValidMergeCand : Nat

/-- Everything `getInterMergeCandidates` reads from outside the list buffer,
one field per external query (see the section comment). -/
structure MergeInput where
  maxNumMergeCand : Nat
  canFastExit : Bool
  mrgCandIdx : Int
  isInterB : Bool
  a1 : Option MotionInfo
  b1 : Option MotionInfo
  b0 : Option MotionInfo
  a0 : Option MotionInfo
  b2 : Option MotionInfo
  enableSubPuMvp : Bool
  tmvpEnabled : Bool
  useATMVP : Bool
  atmvp : Option MotionInfo
  tmvpL0 : Option Mv
  tmvpL1 : Option Mv
  numRefIdxL0 : Nat
  numRefIdxL1 : Nat

/-- The guard pattern `!isAvailableX || (mi != miX)` of the spatial
redundancy tests: true when the earlier neighbour is unavailable or has
different motion. -/
def diffFrom (o : Option MotionInfo) (mi : MotionInfo) : Bool :=
  match o with
  | none => true
  | some m => decide (mi ≠ m)

/-- The candidate-array initialization loop (UnitTools.cpp:523-537): clear
directions and merge types, invalidate both refIdx slots (motion-vector
words keep their stale values), and preset `numValidMergeCand` to the
signalled maximum. -/
def mergeCtxInit (maxN : Nat) (c : MergeCtx) : MergeCtx :=
  { interDirNeighbours := fun ui => if ui < maxN then 0 else c.interDirNeighbours ui,
    mrgTypeNeighbours := fun ui => if ui < maxN then MRG_TYPE_DEFAULT_N else c.mrgTypeNeighbours ui,
    mvFieldNeighbours := fun k =>
      if k < 2 * maxN then { mv := (c.mvFieldNeighbours k).mv, refIdx := NOT_VALID }
      else c.mvFieldNeighbours k,
    numValidMergeCand := maxN }

/-- Writing one spatial candidate at slot `cnt` (the shared shape of the
A1/B1/B0/A0/B2 insertions): direction, list-0 field, and the list-1 field
only on B slices. -/
def insertSpatial (isInterB : Bool) (mi : MotionInfo) (cnt : Nat) (c : MergeCtx) : MergeCtx :=
  let c1 := { c with interDirNeighbours := Function.update c.interDirNeighbours cnt mi.interDir }
  let c2 := { c1 with
    mvFieldNeighbours := Function.update c1.mvFieldNeighbours (2 * cnt) ⟨mi.mv0, mi.refIdx0⟩ }
  if isInterB then
    { c2 with
      mvFieldNeighbours := Function.update c2.mvFieldNeighbours (2 * cnt + 1) ⟨mi.mv1, mi.refIdx1⟩ }
  else c2

/-- One spatial step: when the probed neighbour is usable and passes its
redundancy guard, write the candidate, honour the `mrgCandIdx`/`canFastExit`
early return, and advance the count. -/
def spatialStep (inp : MergeInput) (mi? : Option MotionInfo) (accept : MotionInfo → Bool)
    (s : MergeCtx × Nat) : Except MergeCtx (MergeCtx × Nat) :=
  match mi? with
  | none => .ok s
  | some mi =>
    if accept mi then
      let c := insertSpatial inp.isInterB mi s.2 s.1
      if inp.mrgCandIdx = (s.2 : Int) ∧ inp.canFastExit then .error c
      else .ok (c, s.2 + 1)
    else .ok s

/-- The recurring early-termination test `if (cnt == maxNumMergeCand) return`. -/
def checkFull (maxN : Nat) (s : MergeCtx × Nat) : Except MergeCtx (MergeCtx × Nat) :=
  if s.2 = maxN then .error s.1 else .ok s

/-- Early-return propagation: a function `return`ing early (the `.error`
payload is the list as returned) short-circuits the rest of the body. -/
def estep {α β : Type} (e : Except MergeCtx α) (f : α → Except MergeCtx β) :
    Except MergeCtx β :=
  match e with
  | .error c => .error c
  | .ok a => f a

/-- The four spatial steps A1, B1, B0, A0 with their redundancy guards and
early-termination tests (UnitTools.cpp:540-721). -/
def mergeSpatialPhase (inp : MergeInput) (c0 : MergeCtx) : Except MergeCtx (MergeCtx × Nat) :=
  estep (spatialStep inp inp.a1 (fun _ => true) (c0, 0)) fun s =>
  estep (checkFull inp.maxNumMergeCand s) fun s =>
  estep (spatialStep inp inp.b1 (fun mi => diffFrom inp.a1 mi) s) fun s =>
  estep (checkFull inp.maxNumMergeCand s) fun s =>
  estep (spatialStep inp inp.b0 (fun mi => diffFrom inp.b1 mi) s) fun s =>
  estep (checkFull inp.maxNumMergeCand s) fun s =>
  estep (spatialStep inp inp.a0 (fun mi => diffFrom inp.a1 mi) s) fun s =>
  checkFull inp.maxNumMergeCand s

/-- Writing the sub-block temporal aggregate candidate at slot `cnt`: the
per-list fields and direction as produced by `getInterMergeSubPuMvpCand`,
plus the `MRG_TYPE_SUBPU_ATMVP` tag set by the caller (UnitTools.cpp:748). -/
def insertAtmvp (isInterB : Bool) (mi : MotionInfo) (cnt : Nat) (c : MergeCtx) : MergeCtx :=
  let c1 := insertSpatial isInterB mi cnt c
  { c1 with mrgTypeNeighbours := Function.update c1.mrgTypeNeighbours cnt MRG_TYPE_SUBPU_ATMVP }

/-- The sub-block temporal (ATMVP) step (UnitTools.cpp:723-763): attempted
whenever the sequence enables sub-PU MVP and the slice enables TMVP; on
success the aggregate candidate is written, the `mrgCandIdx` match returns,
and the count advances with its own full-list test.  Returns the slot of the
inserted candidate (`subPuMvpPos`) for the later TMVP redundancy check. -/
def atmvpStep (inp : MergeInput) (s : MergeCtx × Nat) :
    Except MergeCtx ((MergeCtx × Nat) × Option Nat) :=
  if inp.enableSubPuMvp ∧ inp.tmvpEnabled then
    match (if inp.useATMVP then inp.atmvp else none) with
    | some mi =>
      let c := insertAtmvp inp.isInterB mi s.2 s.1
      if inp.mrgCandIdx = (s.2 : Int) then .error c
      else if s.2 + 1 = inp.maxNumMergeCand then .error c
      else .ok ((c, s.2 + 1), some s.2)
    | none => .ok (s, none)
  else .ok (s, none)

/-- The above-left spatial step B2 (UnitTools.cpp:765-812), gated on the
list holding fewer than 6 (sub-PU MVP enabled) or 4 candidates, with its
guard against A1 and B1. -/
def b2Step (inp : MergeInput) (s : MergeCtx × Nat) : Except MergeCtx (MergeCtx × Nat) :=
  if s.2 < (if inp.enableSubPuMvp then 6 else 4) then
    spatialStep inp inp.b2 (fun mi => diffFrom inp.a1 mi && diffFrom inp.b1 mi) s
  else .ok s

/-- The TMVP step (UnitTools.cpp:814-938): probe each list (list 1 only on B
slices) writing the found field at the insertion slot, then insert the
combined candidate unless it repeats the sub-block temporal candidate; the
inserted fields carry `iRefIdx = 0`. -/
def tmvpMergeStep (inp : MergeInput) (subPuMvpPos : Option Nat)
    (s : MergeCtx × Nat) : Except MergeCtx (MergeCtx × Nat) :=
  if inp.tmvpEnabled then
    let cnt := s.2
    let p0 : MergeCtx × Nat :=
      match inp.tmvpL0 with
      | some mv =>
        ({ s.1 with
           mvFieldNeighbours := Function.update s.1.mvFieldNeighbours (2 * cnt) ⟨mv, 0⟩ }, 1)
      | none => (s.1, 0)
    let p1 : MergeCtx × Nat :=
      if inp.isInterB then
        match inp.tmvpL1 with
        | some mv =>
          ({ p0.1 with
             mvFieldNeighbours := Function.update p0.1.mvFieldNeighbours (2 * cnt + 1) ⟨mv, 0⟩ }, p0.2 ||| 2)
        | none => p0
      else p0
    let c := p1.1
    let dir := p1.2
    if dir ≠ 0 then
      let addTMvp :=
        match subPuMvpPos with
        | none => true
        | some pos =>
          if dir ≠ c.interDirNeighbours pos then true
          else
            decide ((dir &&& 1 ≠ 0 ∧
                c.mvFieldNeighbours (2 * cnt) ≠ c.mvFieldNeighbours (2 * pos)) ∨
              (dir &&& 2 ≠ 0 ∧
                c.mvFieldNeighbours (2 * cnt + 1) ≠ c.mvFieldNeighbours (2 * pos + 1)))
      if addTMvp then
        let c2 := { c with interDirNeighbours := Function.update c.interDirNeighbours cnt dir }
        if inp.mrgCandIdx = (cnt : Int) ∧ inp.canFastExit then .error c2
        else checkFull inp.maxNumMergeCand (c2, cnt + 1)
      else checkFull inp.maxNumMergeCand (c, cnt)
    else checkFull inp.maxNumMergeCand (c, cnt)
  else checkFull inp.maxNumMergeCand s

/-- Fixed pair priority table `PRIORITY_LIST0` (UnitTools.cpp:945). -/
def PRIORITY_LIST0 : List Nat := [0, 0, 1, 0, 1, 2]

/-- Fixed pair priority table `PRIORITY_LIST1` (UnitTools.cpp:946). -/
def PRIORITY_LIST1 : List Nat := [1, 2, 2, 3, 3, 3]

/-- The per-list body of one pairwise-average iteration
(UnitTools.cpp:957-1012): skip when both sources lack this list, average
when both have it (C++ truncating division by two), otherwise copy the one
present; accumulates the direction bits. -/
def pairwiseListPass (c : MergeCtx) (cnt i j refListId : Nat) (interDir : Nat) :
    MergeCtx × Nat :=
  let refIdxI := (c.mvFieldNeighbours (i * 2 + refListId)).refIdx
  let refIdxJ := (c.mvFieldNeighbours (j * 2 + refListId)).refIdx
  if refIdxI = NOT_VALID ∧ refIdxJ = NOT_VALID then (c, interDir)
  else
    let interDir2 := interDir + (1 <<< refListId)
    if refIdxI ≠ NOT_VALID ∧ refIdxJ ≠ NOT_VALID then
      let mvI := (c.mvFieldNeighbours (i * 2 + refListId)).mv
      let mvJ := (c.mvFieldNeighbours (j * 2 + refListId)).mv
      let avgMv : Mv := ⟨Int.tdiv (mvI.hor + mvJ.hor) 2, Int.tdiv (mvI.ver + mvJ.ver) 2⟩
      ({ c with
         mvFieldNeighbours := Function.update c.mvFieldNeighbours (cnt * 2 + refListId) ⟨avgMv, refIdxI⟩ }, interDir2)
    else if refIdxI ≠ NOT_VALID then
      ({ c with
         mvFieldNeighbours := Function.update c.mvFieldNeighbours (cnt * 2 + refListId)
           ⟨(c.mvFieldNeighbours (i * 2 + refListId)).mv, refIdxI⟩ }, interDir2)
    else
      ({ c with
         mvFieldNeighbours := Function.update c.mvFieldNeighbours (cnt * 2 + refListId)
           ⟨(c.mvFieldNeighbours (j * 2 + refListId)).mv, refIdxJ⟩ }, interDir2)

/-- One pairwise-average iteration (UnitTools.cpp:948-1018): invalidate the
target slot, run the list passes (list 1 only on B slices), store the
accumulated direction, and keep the candidate iff some list was produced. -/
def pairwiseBody (inp : MergeInput) (idx : Nat) (s : MergeCtx × Nat) : MergeCtx × Nat :=
  let cnt := s.2
  let i := PRIORITY_LIST0.getD idx 0
  let j := PRIORITY_LIST1.getD idx 0
  let c := { s.1 with
    mvFieldNeighbours := Function.update s.1.mvFieldNeighbours (cnt * 2) ⟨⟨0, 0⟩, NOT_VALID⟩ }
  let c := { c with
    mvFieldNeighbours := Function.update c.mvFieldNeighbours (cnt * 2 + 1) ⟨⟨0, 0⟩, NOT_VALID⟩ }
  let q0 := pairwiseListPass c cnt i j 0 0
  let q1 := if inp.isInterB then pairwiseListPass q0.1 cnt i j 1 q0.2 else q0
  let c2 := { q1.1 with interDirNeighbours := Function.update q1.1.interDirNeighbours cnt q1.2 }
  if 0 < q1.2 then (c2, cnt + 1) else (c2, cnt)

/-- The pairwise-average loop (UnitTools.cpp:948): `idx` runs to the pair
cutoff while the list is not yet full. -/
def pairwiseLoop (inp : MergeInput) : Nat → Nat → MergeCtx × Nat → MergeCtx × Nat
  | 0, _, s => s
  | rem + 1, idx, s =>
    if s.2 = inp.maxNumMergeCand then s
    else pairwiseLoop inp rem (idx + 1) (pairwiseBody inp idx s)

/-- The pairwise-average phase (UnitTools.cpp:940-1026) with its trailing
early-termination test. -/
def pairwiseStep (inp : MergeInput) (s : MergeCtx × Nat) : Except MergeCtx (MergeCtx × Nat) :=
  let cutoff := min s.2 4
  let nend := cutoff * (cutoff - 1) / 2
  let s2 := pairwiseLoop inp nend 0 s
  if s2.2 = inp.maxNumMergeCand then .error s2.1 else .ok s2

/-- One slot of the zero-motion fill (UnitTools.cpp:1087-1097): direction
list-0 (bi-directional on B slices), zero vector, reference index `r` (the
list-1 field written only on B slices). -/
def zeroFillWrite (isInterB : Bool) (addr : Nat) (r : Int) (c : MergeCtx) : MergeCtx :=
  let c1 := { c with
    interDirNeighbours := Function.update c.interDirNeighbours addr (if isInterB then 3 else 1) }
  let c2 := { c1 with
    mvFieldNeighbours := Function.update c1.mvFieldNeighbours (2 * addr) ⟨⟨0, 0⟩, r⟩ }
  if isInterB then
    { c2 with
      mvFieldNeighbours := Function.update c2.mvFieldNeighbours (2 * addr + 1) ⟨⟨0, 0⟩, r⟩ }
  else c2

/-- The zero-motion fill loop (UnitTools.cpp:1082-1110): fill remaining
slots with zero-motion candidates, the reference index following the
source's `r`/`refcnt` stepping (`r` resets to 0, and stays 0, once `refcnt`
reaches `iNumRefIdx - 1`). -/
def zeroFillLoop (isInterB : Bool) (maxN : Nat) (iNumRefIdx : Int) :
    Nat → MergeCtx → Nat → Int → Int → MergeCtx × Nat
  | 0, c, addr, _, _ => (c, addr)
  | fuel + 1, c, addr, r, refcnt =>
    if addr < maxN then
      if refcnt = iNumRefIdx - 1 then
        zeroFillLoop isInterB maxN iNumRefIdx fuel (zeroFillWrite isInterB addr r c) (addr + 1) 0 refcnt
      else
        zeroFillLoop isInterB maxN iNumRefIdx fuel (zeroFillWrite isInterB addr r c) (addr + 1) (r + 1) (refcnt + 1)
    else (c, addr)

/-- The steps between the ATMVP attempt and the fill: B2 with its
early-termination test, TMVP, pairwise averages (UnitTools.cpp:765-1026). -/
def mergeTail (inp : MergeInput) (sp : (MergeCtx × Nat) × Option Nat) :
    Except MergeCtx (MergeCtx × Nat) :=
  estep (b2Step inp sp.1) fun s =>
  estep (checkFull inp.maxNumMergeCand s) fun s =>
  estep (tmvpMergeStep inp sp.2 s) fun s =>
  pairwiseStep inp s

/-- The function epilogue: either an early `return` (the list as it stands),
or the zero-motion fill followed by the final `numValidMergeCand` write
(UnitTools.cpp:1078-1111). -/
def mergeFinalize (inp : MergeInput) (e : Except MergeCtx (MergeCtx × Nat)) : MergeCtx :=
  match e with
  | .error c => c
  | .ok (c, cnt) =>
    let iNumRefIdx : Int :=
      if inp.isInterB then min (inp.numRefIdxL0 : Int) (inp.numRefIdxL1 : Int)
      else (inp.numRefIdxL0 : Int)
    let z := zeroFillLoop inp.isInterB inp.maxNumMergeCand iNumRefIdx
      (inp.maxNumMergeCand - cnt) c cnt 0 0
    { z.1 with numValidMergeCand := z.2 }

/-- The phase after the four spatial steps: ATMVP, B2, TMVP, pairwise
averages, zero-motion fill and the final `numValidMergeCand` write
(UnitTools.cpp:723-1111). -/
def mergeRestPhase (inp : MergeInput) (s : MergeCtx × Nat) : MergeCtx :=
  mergeFinalize inp (estep (atmvpStep inp s) (mergeTail inp))

/-- Embedding of `PU::getInterMergeCandidates` (UnitTools.cpp:511-1112). -/
def getInterMergeCandidates (inp : MergeInput) (mrgCtx : MergeCtx) : MergeCtx :=
  match mergeSpatialPhase inp (mergeCtxInit inp.maxNumMergeCand mrgCtx) with
  | .error c => c
  | .ok s => mergeRestPhase inp s

/-- Concrete AMVP oracle for the witnesses: no neighbour or temporal probe
succeeds. -/
def amvpOracleW : AmvpOracle :=
  { isScaledFlagLX := false, unscaledBelowLeft := none, unscaledLeft := none,
    scaledBelowLeft := none, scaledLeft := none, unscaledAboveRight := none,
    unscaledAbove := none, unscaledAboveLeft := none, scaledAboveRight := none,
    scaledAbove := none, scaledAboveLeft := none, imv := 0, tmvpEnabled := false,
    temporalMv := none }

/-- Concrete affine AMVP oracle for the witnesses: no inherited or corner
candidate. -/
def affineOracleW : AffineAmvpOracle :=
  { inherited := [], affineType6 := false, curWidth := 16, curHeight := 16,
    v0AboveLeft := none, v0Above := none, v0Left := none, v1Above := none,
    v1AboveRight := none, v2Left := none, v2BelowLeft := none,
    undefMv := ⟨0, 0⟩, undefAmvp := { mvCand := fun _ => ⟨0, 0⟩, numCand := 0 } }

/-- Arbitrary stale AMVP buffer contents used by the witnesses. -/
def amvpInitW : AMVPInfo := { mvCand := fun _ => ⟨9, 9⟩, numCand := 5 }

/-- Arbitrary stale affine AMVP buffer contents used by the witnesses. -/
def affineInitW : AffineAMVPInfo :=
  { mvCandLT := fun _ => ⟨9, 9⟩, mvCandRT := fun _ => ⟨9, 9⟩,
    mvCandLB := fun _ => ⟨9, 9⟩, numCand := 5 }

/-! ## Best-mode ledger and CU finishing: `EncCu::xCheckBestMode`
(EncCu.cpp:462-493), `EncCu::xCheckModeSplit` tail (EncCu.cpp:1462-1498) and
`EncCu::xCompressCU` finishing section (EncCu.cpp:969-1049)

RD costs are C++ doubles used only through ordering and equality with the
`MAX_DOUBLE` sentinel; they are modelled as exact integers with a distinguished
sentinel value.  The entropy-coder context is snapshotted and restored as an
opaque value.  CodingStructures are summarized by the fields these routines
read, plus an identity tag that makes the swap-not-copy observable. -/

/-- Modelled from the spec: the `MAX_DOUBLE` cost sentinel (`CommonDef.h`, not
under `src/`); any fixed value above every reachable cost works since the
source only compares against it for equality. -/
def MAX_DOUBLE : Int := 10 ^ 30

/-- Modelled from the spec: `NUMBER_OF_PREDICTION_MODES`, the end marker of
the prediction-mode enum (intra/inter/IBC/palette), used as the
"no mode decided" value. -/
def NUMBER_OF_PREDICTION_MODES : Nat := 4

/-- Summary of a `CodingStructure` as read by the ledger: an identity tag (to
observe pointer swaps), its RD cost, and the two facts about its CU list that
`xCheckBestMode` inspects. -/
structure CodingStructureM where
  id : Nat
  cost : Int
  cusEmpty : Bool
  skipWithoutMerge : Bool
deriving DecidableEq, Repr

/-- The encoder state threaded through `xCheckBestMode`: the `tempCS` and
`bestCS` pointers, the CABAC estimator context, the current node's
start/best context checkpoints (`m_CurrCtx`), and the `m_bestModeUpdated`
flag. -/
structure LedgerState where
  tempCS : CodingStructureM
  bestCS : CodingStructureM
  cabacCtx : Int
  currCtxStart : Int
  currCtxBest : Int
  bestModeUpdated : Bool
deriving DecidableEq, Repr

/-- Embedding of `EncCu::xCheckBestMode` (EncCu.cpp:462-493).  The
ModeController's `useModeResult` verdict is computed in `EncModeCtrl.cpp`
(not under `src/`) and enters as the `useResult` input.  `.error` models the
`CHECK` abort on a skip flag without a merge flag; otherwise the updated
state and the returned `bestCSUpdated` flag. -/
def xCheckBestMode (useResult : Bool) (s : LedgerState) :
    Except String (LedgerState × Bool) :=
  if s.tempCS.cusEmpty then
    -- the trial produced nothing; still reset the context (line 491)
    .ok ({ s with cabacCtx := s.currCtxStart }, false)
  else
    if s.tempCS.skipWithoutMerge then
      .error "Skip flag without a merge flag is not allowed!"
    else if useResult then
      -- accept: swap the structures, snapshot the context, set the flag
      .ok ({ s with tempCS := s.bestCS, bestCS := s.tempCS,
                    currCtxBest := s.cabacCtx, bestModeUpdated := true,
                    cabacCtx := s.currCtxStart }, true)
    else
      .ok ({ s with cabacCtx := s.currCtxStart }, false)

/-- Modelled from the spec: the ModeController's acceptance comparison
(`EncModeCtrl::useModeResult`, `EncModeCtrl.cpp` not under `src/`); §4.4: a
trial is accepted iff its cost is strictly better, ties keep the earlier
(first-found) result. -/
def useModeResult (tempCost bestCost : Int) : Bool := tempCost < bestCost

/-- Modelled from the spec: `RdCost::calcRdCost` (not under `src/`), the
scalar objective `lambda * bits + distortion`. -/
def calcRdCost (lambda fracBits dist : Int) : Int := lambda * fracBits + dist

/-- Embedding of the tail of `EncCu::xCheckModeSplit` (EncCu.cpp:1462-1498):
store the aggregated child cost into `tempCS->cost`, then offer the split
result to the ledger through `xCheckBestMode`. -/
def xCheckModeSplitFinish (lambda fracBits dist : Int) (s : LedgerState) :
    Except String (LedgerState × Bool) :=
  let s1 := { s with tempCS := { s.tempCS with cost := calcRdCost lambda fracBits dist } }
  xCheckBestMode (useModeResult s1.tempCS.cost s1.bestCS.cost) s1

/-- Outcome classification of the finishing section of `xCompressCU`. -/
inductive CuFinish where
  | earlyReturn
  | finalized
deriving DecidableEq, Repr

/-- Embedding of the finishing section of `EncCu::xCompressCU`
(EncCu.cpp:969-1049), classifying its exit: the both-costs-sentinel early
return (lines 971-977, only `finishCULevel` runs, the node is not finalized);
otherwise the `bestCS->cus.back()` access of line 992 (fatal on an empty CU
list, reached before the `CHECK(bestCS->cus.empty(), ...)` of line 1046 could
fire) and the `"No possible encoding found"` CHECK aborts of lines 1047-1048.
`bestCusPredModes` lists the prediction mode of each CU in `bestCS->cus`. -/
def xCompressCU_finish (tempCost bestCost : Int) (bestCusPredModes : List Nat) :
    Except String CuFinish :=
  if tempCost = MAX_DOUBLE ∧ bestCost = MAX_DOUBLE then
    .ok .earlyReturn
  else
    match bestCusPredModes with
    | [] => .error "bestCS->cus is empty"
    | p0 :: _ =>
      if p0 = NUMBER_OF_PREDICTION_MODES then .error "No possible encoding found"
      else if bestCost = MAX_DOUBLE then .error "No possible encoding found"
      else .ok .finalized

/-- An all-zero stale merge buffer for the concrete merge-list theorems. -/
def zeroMergeCtx : MergeCtx :=
  { interDirNeighbours := fun _ => 0, mvFieldNeighbours := fun _ => ⟨⟨0, 0⟩, 0⟩,
    mrgTypeNeighbours := fun _ => 0, numValidMergeCand := 0 }

/-- The claim-C8 scenario family: only the left neighbour A1 is available
(motion `m`), every optional tool is off, a P slice with `n` list-0
reference pictures and signalled maximum `maxN`. -/
def mergeInputOnlyA1 (maxN n : Nat) (m : MotionInfo) : MergeInput :=
  { maxNumMergeCand := maxN, canFastExit := true, mrgCandIdx := -1, isInterB := false,
    a1 := some m, b1 := none, b0 := none, a0 := none, b2 := none,
    enableSubPuMvp := false, tmvpEnabled := false, useATMVP := false, atmvp := none,
    tmvpL0 := none, tmvpL1 := none, numRefIdxL0 := n, numRefIdxL1 := n }

/-- The A1 motion of the claim-C8 scenario: list-0, vector (4, 0), refIdx 0. -/
def miA1C8 : MotionInfo := ⟨1, ⟨4, 0⟩, 0, ⟨0, 0⟩, -1⟩

/-- Counterexample input for claim C1: signalled maximum 2, one reference
picture, and a zero-motion left neighbour — the zero-motion fill then
repeats candidate 0 exactly. -/
def mergeInputC1ctr : MergeInput := mergeInputOnlyA1 2 1 ⟨1, ⟨0, 0⟩, 0, ⟨0, 0⟩, -1⟩

/-- Counterexample input for claim C7: all four spatial neighbours available
with pairwise different motion (so the list holds 4 candidates after the
spatial steps), maximum 6, and the sub-block temporal tools enabled with a
successful ATMVP derivation. -/
def mergeInputC7ctr : MergeInput :=
  { maxNumMergeCand := 6, canFastExit := true, mrgCandIdx := -1, isInterB := false,
    a1 := some ⟨1, ⟨1, 0⟩, 0, ⟨0, 0⟩, -1⟩, b1 := some ⟨1, ⟨2, 0⟩, 0, ⟨0, 0⟩, -1⟩,
    b0 := some ⟨1, ⟨3, 0⟩, 0, ⟨0, 0⟩, -1⟩, a0 := some ⟨1, ⟨4, 0⟩, 0, ⟨0, 0⟩, -1⟩,
    b2 := some ⟨1, ⟨5, 0⟩, 0, ⟨0, 0⟩, -1⟩,
    enableSubPuMvp := true, tmvpEnabled := true, useATMVP := true,
    atmvp := some ⟨1, ⟨7, 7⟩, 0, ⟨0, 0⟩, -1⟩,
    tmvpL0 := none, tmvpL1 := none, numRefIdxL0 := 2, numRefIdxL1 := 2 }

/-! # Theorems

All claim theorems and their witnesses follow; the definitions above are
complete. -/

/-- Restatement of `getColocatedMVP` through the named intermediate selections;
used to phrase reach conditions in the claims below. -/
theorem getColocatedMVP_eq (noMotComp : Bool) (slice : CurSliceInfo)
    (colPic : ColPicInfo) (eRefPicList : Nat) (pos : Nat × Nat) (refIdx : Int) :
    getColocatedMVP ⟨noMotComp, slice, some colPic⟩ eRefPicList pos refIdx =
      (let mi := colPic.motionInfo (colQuantPos noMotComp pos)
       if !mi.isInter then .ok none
       else
         let eCol := colSelList slice mi eRefPicList
         let iColRefIdx := mi.refIdx eCol
         if iColRefIdx < 0 then .ok none
         else
           match colPic.slices mi.sliceIdx with
           | none => .error "Slice segment not found"
           | some colSlice =>
             let bIsCurrRefLongTerm := slice.refLongTerm eRefPicList refIdx
             let bIsColRefLongTerm := colSlice.isUsedAsLongTerm eCol iColRefIdx
             if bIsCurrRefLongTerm ≠ bIsColRefLongTerm then .ok none
             else
               let cColMv := mi.mv eCol
               if bIsCurrRefLongTerm then .ok (some cColMv)
               else
                 let distscale := xGetDistScaleFactor slice.poc
                   (slice.refPOC eRefPicList refIdx) colSlice.poc
                   (colSlice.refPOC eCol iColRefIdx)
                 if distscale = 4096 then .ok (some cColMv)
                 else .ok (some (cColMv.scaleMv distscale))) := by
  rfl

/-- C4.  In temporal motion-vector scaling, whenever the current picture's POC
distance to its reference equals the collocated picture's POC distance to its
reference, `xGetDistScaleFactor` returns the no-scaling constant `4096` and
`PU::getColocatedMVP` returns the collocated motion vector unchanged (no
multiply-and-round applied).  Hypotheses: the temporal probe succeeds (a
collocated picture exists, the probed field is inter with a valid refIdx, the
collocated slice is found) and both references are short-term so the scaling
branch is reached. -/
theorem getColocatedMVP_no_scaling_on_equal_distance
    (noMotComp : Bool) (slice : CurSliceInfo) (colPic : ColPicInfo)
    (eRefPicList : Nat) (pos : Nat × Nat) (refIdx : Int)
    (mi : ColMotionInfo) (colSlice : ColSliceInfo)
    (hmi : colPic.motionInfo (colQuantPos noMotComp pos) = mi)
    (hInter : mi.isInter = true)
    (hRefOk : 0 ≤ mi.refIdx (colSelList slice mi eRefPicList))
    (hSlice : colPic.slices mi.sliceIdx = some colSlice)
    (hCurST : slice.refLongTerm eRefPicList refIdx = false)
    (hColST : colSlice.isUsedAsLongTerm (colSelList slice mi eRefPicList)
        (mi.refIdx (colSelList slice mi eRefPicList)) = false)
    (hEqDist : slice.poc - slice.refPOC eRefPicList refIdx =
        colSlice.poc - colSlice.refPOC (colSelList slice mi eRefPicList)
          (mi.refIdx (colSelList slice mi eRefPicList))) :
    xGetDistScaleFactor slice.poc (slice.refPOC eRefPicList refIdx)
        colSlice.poc (colSlice.refPOC (colSelList slice mi eRefPicList)
          (mi.refIdx (colSelList slice mi eRefPicList))) = 4096 ∧
    getColocatedMVP ⟨noMotComp, slice, some colPic⟩ eRefPicList pos refIdx =
      .ok (some (mi.mv (colSelList slice mi eRefPicList))) := by
  have hscale : xGetDistScaleFactor slice.poc (slice.refPOC eRefPicList refIdx)
      colSlice.poc (colSlice.refPOC (colSelList slice mi eRefPicList)
        (mi.refIdx (colSelList slice mi eRefPicList))) = 4096 := by
    unfold xGetDistScaleFactor
    simp [hEqDist]
  refine ⟨hscale, ?_⟩
  rw [getColocatedMVP_eq]
  simp only [hmi, hInter, Bool.not_true, Bool.false_eq_true, if_false, hSlice,
    not_lt.mpr hRefOk, hCurST, hColST, hscale, ne_eq, not_false_iff, if_true,
    if_pos rfl]
  simp

/-- Witness for C4 at the concrete oracle `colInputC4`. -/
theorem getColocatedMVP_no_scaling_on_equal_distance_witness :
    xGetDistScaleFactor 8 4 6 2 = 4096 ∧
    getColocatedMVP colInputC4 0 (0, 0) 0 = .ok (some ⟨3, 4⟩) := by
  have h := getColocatedMVP_no_scaling_on_equal_distance true
    { checkLDC := true, colFromL0Flag := 0, poc := 8,
      refLongTerm := fun _ _ => false, refPOC := fun _ _ => 4 }
    { motionInfo := fun _ =>
        { isInter := true, sliceIdx := 0, refIdx := fun _ => 0, mv := fun _ => ⟨3, 4⟩ },
      slices := fun _ => some
        { isUsedAsLongTerm := fun _ _ => false, poc := 6, refPOC := fun _ _ => 2 } }
    0 (0, 0) 0
    { isInter := true, sliceIdx := 0, refIdx := fun _ => 0, mv := fun _ => ⟨3, 4⟩ }
    { isUsedAsLongTerm := fun _ _ => false, poc := 6, refPOC := fun _ _ => 2 }
    rfl rfl (by decide) rfl rfl rfl (by decide)
  exact h

/-- C5.  `PU::getColocatedMVP` rejects the temporal candidate outright (returns
`false`, producing no vector) whenever the current reference picture and the
collocated reference picture disagree in long-term status; and when both
references are long-term the collocated motion vector is copied without
scaling.  Hypotheses: the probe reaches the long-term comparison (collocated
picture present, inter motion field, valid refIdx, collocated slice found). -/
theorem getColocatedMVP_long_term_rule
    (noMotComp : Bool) (slice : CurSliceInfo) (colPic : ColPicInfo)
    (eRefPicList : Nat) (pos : Nat × Nat) (refIdx : Int)
    (mi : ColMotionInfo) (colSlice : ColSliceInfo)
    (hmi : colPic.motionInfo (colQuantPos noMotComp pos) = mi)
    (hInter : mi.isInter = true)
    (hRefOk : 0 ≤ mi.refIdx (colSelList slice mi eRefPicList))
    (hSlice : colPic.slices mi.sliceIdx = some colSlice) :
    (slice.refLongTerm eRefPicList refIdx ≠
        colSlice.isUsedAsLongTerm (colSelList slice mi eRefPicList)
          (mi.refIdx (colSelList slice mi eRefPicList)) →
      getColocatedMVP ⟨noMotComp, slice, some colPic⟩ eRefPicList pos refIdx =
        .ok none) ∧
    (slice.refLongTerm eRefPicList refIdx = true ∧
        colSlice.isUsedAsLongTerm (colSelList slice mi eRefPicList)
          (mi.refIdx (colSelList slice mi eRefPicList)) = true →
      getColocatedMVP ⟨noMotComp, slice, some colPic⟩ eRefPicList pos refIdx =
        .ok (some (mi.mv (colSelList slice mi eRefPicList)))) := by
  constructor
  · intro hne
    rw [getColocatedMVP_eq]
    simp only [hmi, hInter, Bool.not_true, Bool.false_eq_true, if_false, hSlice,
      not_lt.mpr hRefOk]
    simp [hne]
  · rintro ⟨hcur, hcol⟩
    rw [getColocatedMVP_eq]
    simp only [hmi, hInter, Bool.not_true, Bool.false_eq_true, if_false, hSlice,
      not_lt.mpr hRefOk, hcur, hcol]
    simp

/-- Witness for C5 at the concrete oracle `colInputC5`: with both references
long-term the vector is copied unscaled. -/
theorem getColocatedMVP_long_term_rule_witness :
    getColocatedMVP colInputC5 0 (0, 0) 0 = .ok (some ⟨7, -2⟩) := by
  have h := getColocatedMVP_long_term_rule true
    { checkLDC := true, colFromL0Flag := 0, poc := 8,
      refLongTerm := fun _ _ => true, refPOC := fun _ _ => 4 }
    { motionInfo := fun _ =>
        { isInter := true, sliceIdx := 0, refIdx := fun _ => 0, mv := fun _ => ⟨7, -2⟩ },
      slices := fun _ => some
        { isUsedAsLongTerm := fun _ _ => true, poc := 6, refPOC := fun _ _ => 2 } }
    0 (0, 0) 0
    { isInter := true, sliceIdx := 0, refIdx := fun _ => 0, mv := fun _ => ⟨7, -2⟩ }
    { isUsedAsLongTerm := fun _ _ => true, poc := 6, refPOC := fun _ _ => 2 }
    rfl rfl (by decide) rfl
  exact h.2 ⟨rfl, rfl⟩

/-! ## Helper lemmas: the AMVP derivations keep exactly two entries and are
independent of the incoming buffer contents -/

theorem addCand_visEq {a b : AMVPInfo} (c : Option Mv) (h : visEq a b) :
    visEq (addCand c a).1 (addCand c b).1 ∧ (addCand c a).2 = (addCand c b).2 := by
  obtain ⟨hn, hv⟩ := h
  cases c with
  | none => exact ⟨⟨hn, hv⟩, rfl⟩
  | some mv =>
    refine ⟨⟨by simp [addCand, hn], fun i hi => ?_⟩, rfl⟩
    simp only [addCand] at hi ⊢
    by_cases he : i = a.numCand
    · subst he
      simp [Function.update_apply, hn]
    · have hlt : i < a.numCand := by omega
      have he2 : i ≠ b.numCand := by rw [← hn]; exact he
      simp [Function.update_apply, he, he2, hv i hlt]

theorem addChain_visEq (cs : List (Option Mv)) {a b : AMVPInfo} (h : visEq a b) :
    visEq (addChain cs a) (addChain cs b) := by
  induction cs generalizing a b with
  | nil => exact h
  | cons c rest ih =>
    obtain ⟨h1, h2⟩ := addCand_visEq c h
    simp only [addChain]
    rw [h2]
    by_cases hb : (addCand c b).2 = true
    · simp only [hb, if_true]
      exact h1
    · simp only [hb, if_false, Bool.false_eq_true]
      exact ih h1

theorem roundLoop_visEq (sh : Nat) {a b : AMVPInfo} (h : visEq a b) :
    visEq (roundLoop a sh) (roundLoop b sh) := by
  obtain ⟨hn, hv⟩ := h
  refine ⟨by simp [roundLoop, hn], fun i hi => ?_⟩
  simp only [roundLoop] at hi ⊢
  have hi2 : i < b.numCand := hn ▸ hi
  simp [hi, hi2, hv i hi]

theorem leftSearch_visEq (o : AmvpOracle) {a b : AMVPInfo} (h : visEq a b) :
    visEq (leftSearch o a) (leftSearch o b) := by
  unfold leftSearch
  split
  · exact addChain_visEq _ h
  · exact h

theorem aboveSearch_visEq (o : AmvpOracle) {a b : AMVPInfo} (h : visEq a b) :
    visEq (aboveSearch o a) (aboveSearch o b) :=
  addChain_visEq _ h

theorem scaledAboveSearch_visEq (o : AmvpOracle) {a b : AMVPInfo} (h : visEq a b) :
    visEq (scaledAboveSearch o a) (scaledAboveSearch o b) := by
  unfold scaledAboveSearch
  split
  · exact addChain_visEq _ h
  · exact h

theorem imvRoundPass1_visEq (o : AmvpOracle) {a b : AMVPInfo} (h : visEq a b) :
    visEq (imvRoundPass1 o a) (imvRoundPass1 o b) := by
  unfold imvRoundPass1
  split
  · exact roundLoop_visEq _ h
  · exact h

theorem dedupStep_visEq {a b : AMVPInfo} (h : visEq a b) :
    visEq (dedupStep a) (dedupStep b) := by
  obtain ⟨hn, hv⟩ := h
  unfold dedupStep
  by_cases hc : a.numCand = 2 ∧ a.mvCand 0 = a.mvCand 1
  · have hc2 : b.numCand = 2 ∧ b.mvCand 0 = b.mvCand 1 := by
      refine ⟨hn ▸ hc.1, ?_⟩
      have e0 := hv 0 (by omega)
      have e1 := hv 1 (by rw [hc.1]; omega)
      rw [← e0, ← e1]
      exact hc.2
    rw [if_pos hc, if_pos hc2]
    exact ⟨rfl, fun i hi => hv i (by simp at hi; omega)⟩
  · have hc2 : ¬(b.numCand = 2 ∧ b.mvCand 0 = b.mvCand 1) := by
      intro hb
      refine hc ⟨hn ▸ hb.1, ?_⟩
      have two : a.numCand = 2 := hn ▸ hb.1
      have e0 := hv 0 (by omega)
      have e1 := hv 1 (by rw [two]; omega)
      rw [e0, e1]
      exact hb.2
    rw [if_neg hc, if_neg hc2]
    exact ⟨hn, hv⟩

theorem tmvpStep_visEq (o : AmvpOracle) {a b : AMVPInfo} (h : visEq a b) :
    visEq (tmvpStep o a) (tmvpStep o b) := by
  obtain ⟨hn, hv⟩ := h
  unfold tmvpStep
  split
  · cases o.temporalMv with
    | none => exact ⟨hn, hv⟩
    | some mv =>
      refine ⟨by simp [hn], fun i hi => ?_⟩
      simp only at hi ⊢
      by_cases he : i = a.numCand
      · subst he
        simp [Function.update_apply, hn]
      · have hlt : i < a.numCand := by omega
        have he2 : i ≠ b.numCand := by rw [← hn]; exact he
        simp [Function.update_apply, he, he2, hv i hlt]
  · exact ⟨hn, hv⟩

theorem fillMvpCandCore_visEq (o : AmvpOracle) {a b : AMVPInfo} (h : visEq a b) :
    visEq (fillMvpCandCore o a) (fillMvpCandCore o b) :=
  tmvpStep_visEq o (dedupStep_visEq (imvRoundPass1_visEq o
    (scaledAboveSearch_visEq o (aboveSearch_visEq o (leftSearch_visEq o h)))))

theorem truncStep_visEq {a b : AMVPInfo} (h : visEq a b) :
    visEq (truncStep a) (truncStep b) := by
  obtain ⟨hn, hv⟩ := h
  unfold truncStep
  by_cases hc : AMVP_MAX_NUM_CANDS < a.numCand
  · rw [if_pos hc, if_pos (hn ▸ hc)]
    exact ⟨rfl, fun i hi => hv i (by simp at hi ⊢; omega)⟩
  · rw [if_neg hc, if_neg (hn ▸ hc)]
    exact ⟨hn, hv⟩

theorem padTo2_visEq (fuel : Nat) {a b : AMVPInfo} (h : visEq a b) :
    visEq (padTo2 fuel a) (padTo2 fuel b) := by
  induction fuel generalizing a b with
  | zero => exact h
  | succ n ih =>
    obtain ⟨hn, hv⟩ := h
    unfold padTo2
    by_cases hc : a.numCand < AMVP_MAX_NUM_CANDS
    · rw [if_pos hc, if_pos (hn ▸ hc)]
      refine ih ⟨by simp [hn], fun i hi => ?_⟩
      simp only at hi ⊢
      by_cases he : i = a.numCand
      · subst he
        simp [Function.update_apply, hn]
      · have hlt : i < a.numCand := by omega
        have he2 : i ≠ b.numCand := by rw [← hn]; exact he
        simp [Function.update_apply, he, he2, hv i hlt]
    · rw [if_neg hc, if_neg (hn ▸ hc)]
      exact ⟨hn, hv⟩

theorem precShiftStep_visEq {a b : AMVPInfo} (h : visEq a b) :
    visEq (precShiftStep a) (precShiftStep b) := by
  obtain ⟨hn, hv⟩ := h
  refine ⟨by simp [precShiftStep, hn], fun i hi => ?_⟩
  simp only [precShiftStep] at hi ⊢
  by_cases hm : i < AMVP_MAX_NUM_CANDS_MEM
  · simp [hm, hv i hi]
  · simp [hm, hv i hi]

theorem imvRoundPass2_visEq (o : AmvpOracle) {a b : AMVPInfo} (h : visEq a b) :
    visEq (imvRoundPass2 o a) (imvRoundPass2 o b) := by
  unfold imvRoundPass2
  split
  · exact roundLoop_visEq _ h
  · exact h

theorem fillMvpCandFinish_visEq (o : AmvpOracle) {a b : AMVPInfo} (h : visEq a b) :
    visEq (fillMvpCandFinish o a) (fillMvpCandFinish o b) :=
  imvRoundPass2_visEq o (precShiftStep_visEq (padTo2_visEq _ (truncStep_visEq h)))

theorem padTo2_numCand (info : AMVPInfo) (h : info.numCand ≤ 2) :
    (padTo2 2 info).numCand = 2 := by
  unfold padTo2 padTo2 padTo2
  simp only [AMVP_MAX_NUM_CANDS]
  split
  · split
    · simp
      omega
    · simp only
      omega
  · omega

theorem fillMvpCandFinish_numCand (o : AmvpOracle) (info : AMVPInfo) :
    (fillMvpCandFinish o info).numCand = AMVP_MAX_NUM_CANDS := by
  unfold fillMvpCandFinish
  have htr : (truncStep info).numCand ≤ 2 := by
    unfold truncStep
    split
    · simp [AMVP_MAX_NUM_CANDS]
    · simp only [AMVP_MAX_NUM_CANDS] at *
      omega
  have hp : (padTo2 AMVP_MAX_NUM_CANDS (truncStep info)).numCand = 2 :=
    padTo2_numCand _ htr
  have hq : (precShiftStep (padTo2 AMVP_MAX_NUM_CANDS (truncStep info))).numCand = 2 := by
    simpa [precShiftStep] using hp
  unfold imvRoundPass2
  split
  · simpa [roundLoop] using hq
  · simpa [AMVP_MAX_NUM_CANDS] using hq

theorem fillMvpCand_numCand (o : AmvpOracle) (refIdx : Int) (init : AMVPInfo)
    (h : 0 ≤ refIdx) : (fillMvpCand o refIdx init).numCand = AMVP_MAX_NUM_CANDS := by
  unfold fillMvpCand
  rw [if_neg (by omega)]
  exact fillMvpCandFinish_numCand o _

theorem fillMvpCand_visEq (o : AmvpOracle) (refIdx : Int) (init1 init2 : AMVPInfo)
    (h : 0 ≤ refIdx) :
    visEq (fillMvpCand o refIdx init1) (fillMvpCand o refIdx init2) := by
  unfold fillMvpCand
  rw [if_neg (by omega), if_neg (by omega)]
  exact fillMvpCandFinish_visEq o (fillMvpCandCore_visEq o ⟨rfl, fun i hi => by simp at hi⟩)

theorem visEq_amvpList {a b : AMVPInfo} (h : visEq a b) (h2 : a.numCand = 2) :
    amvpList a = amvpList b := by
  obtain ⟨hn, hv⟩ := h
  have e0 := hv 0 (by omega)
  have e1 := hv 1 (by omega)
  simp [amvpList, e0, e1]

theorem insertTriple_affiVisEq (t6 : Bool) (m0 m1 m2 : Mv) {a b : AffineAMVPInfo}
    (h : affiVisEq a b) : affiVisEq (insertTriple t6 m0 m1 m2 a) (insertTriple t6 m0 m1 m2 b) := by
  obtain ⟨hn, hv⟩ := h
  have hins : ∀ {x y : AffineAMVPInfo}, x.numCand = y.numCand →
      (∀ i, i < x.numCand → x.mvCandLT i = y.mvCandLT i ∧ x.mvCandRT i = y.mvCandRT i ∧ x.mvCandLB i = y.mvCandLB i) →
      affiVisEq
        { x with mvCandLT := Function.update x.mvCandLT x.numCand m0,
                 mvCandRT := Function.update x.mvCandRT x.numCand m1,
                 mvCandLB := Function.update x.mvCandLB x.numCand m2,
                 numCand := x.numCand + 1 }
        { y with mvCandLT := Function.update y.mvCandLT y.numCand m0,
                 mvCandRT := Function.update y.mvCandRT y.numCand m1,
                 mvCandLB := Function.update y.mvCandLB y.numCand m2,
                 numCand := y.numCand + 1 } := by
    intro x y hxy hvv
    refine ⟨by simp [hxy], fun i hi => ?_⟩
    simp only at hi ⊢
    by_cases he : i = x.numCand
    · subst he
      simp [Function.update_apply, hxy]
    · have hlt : i < x.numCand := by omega
      have he2 : i ≠ y.numCand := by rw [← hxy]; exact he
      obtain ⟨x1, x2, x3⟩ := hvv i hlt
      simp [Function.update_apply, he, he2, x1, x2, x3]
  unfold insertTriple
  by_cases hz : a.numCand = 0
  · have hz2 : b.numCand = 0 := hn ▸ hz
    rw [if_pos (Or.inl hz), if_pos (Or.inl hz2)]
    exact hins hn hv
  · have e0 := hv 0 (by omega)
    have hzb : b.numCand ≠ 0 := by rw [← hn]; exact hz
    by_cases hc : (¬t6 = true ∧ (m0 ≠ a.mvCandLT 0 ∨ m1 ≠ a.mvCandRT 0)) ∨
        (t6 = true ∧ (m0 ≠ a.mvCandLT 0 ∨ m1 ≠ a.mvCandRT 0 ∨ m2 ≠ a.mvCandLB 0))
    · have hc2 : (¬t6 = true ∧ (m0 ≠ b.mvCandLT 0 ∨ m1 ≠ b.mvCandRT 0)) ∨
          (t6 = true ∧ (m0 ≠ b.mvCandLT 0 ∨ m1 ≠ b.mvCandRT 0 ∨ m2 ≠ b.mvCandLB 0)) := by
        rw [← e0.1, ← e0.2.1, ← e0.2.2]
        exact hc
      rw [if_pos (Or.inr hc), if_pos (Or.inr hc2)]
      exact hins hn hv
    · have hc2 : ¬((¬t6 = true ∧ (m0 ≠ b.mvCandLT 0 ∨ m1 ≠ b.mvCandRT 0)) ∨
          (t6 = true ∧ (m0 ≠ b.mvCandLT 0 ∨ m1 ≠ b.mvCandRT 0 ∨ m2 ≠ b.mvCandLB 0))) := by
        rw [← e0.1, ← e0.2.1, ← e0.2.2]
        exact hc
      rw [if_neg (by rintro (h0 | h0) <;> [exact hz h0; exact hc h0]),
          if_neg (by rintro (h0 | h0) <;> [exact hzb h0; exact hc2 h0])]
      exact ⟨hn, hv⟩

theorem insertTriple_numCand_le (t6 : Bool) (m0 m1 m2 : Mv) (a : AffineAMVPInfo) :
    (insertTriple t6 m0 m1 m2 a).numCand ≤ a.numCand + 1 := by
  unfold insertTriple
  split
  · simp
  · omega

theorem inheritedLoop_affiVisEq (t6 : Bool) (ts : List (Mv × Mv × Mv))
    {a b : AffineAMVPInfo} (h : affiVisEq a b) :
    affiVisEq (inheritedLoop t6 ts a) (inheritedLoop t6 ts b) := by
  induction ts generalizing a b with
  | nil => exact h
  | cons t rest ih =>
    obtain ⟨hn, hv⟩ := h
    unfold inheritedLoop
    by_cases hc : a.numCand < AMVP_MAX_NUM_CANDS
    · rw [if_pos hc, if_pos (hn ▸ hc)]
      exact ih (insertTriple_affiVisEq _ _ _ _ ⟨hn, hv⟩)
    · rw [if_neg hc, if_neg (hn ▸ hc)]
      exact ⟨hn, hv⟩

theorem inheritedLoop_numCand_le (t6 : Bool) (ts : List (Mv × Mv × Mv)) (a : AffineAMVPInfo)
    (h : a.numCand ≤ AMVP_MAX_NUM_CANDS) :
    (inheritedLoop t6 ts a).numCand ≤ AMVP_MAX_NUM_CANDS := by
  induction ts generalizing a with
  | nil => exact h
  | cons t rest ih =>
    unfold inheritedLoop
    split
    next hc =>
      refine ih _ ?_
      have := insertTriple_numCand_le t6 (roundMV2SignalPrecision t.1)
        (roundMV2SignalPrecision t.2.1)
        (if t6 then roundMV2SignalPrecision t.2.2 else t.2.2) a
      unfold insertInherited
      omega
    next hc => exact h

theorem affinePrecShift_numCand (a : AffineAMVPInfo) :
    (affinePrecShift a).numCand = a.numCand := rfl

theorem affinePrecShift_affiVisEq {a b : AffineAMVPInfo} (h : affiVisEq a b) :
    affiVisEq (affinePrecShift a) (affinePrecShift b) := by
  obtain ⟨hn, hv⟩ := h
  refine ⟨by simp [affinePrecShift, hn], fun i hi => ?_⟩
  simp only [affinePrecShift] at hi ⊢
  have hi2 : i < b.numCand := hn ▸ hi
  obtain ⟨x1, x2, x3⟩ := hv i hi
  simp [hi, hi2, x1, x2, x3]

theorem constructedInsert_affiVisEq (ao : AffineAmvpOracle) {a b : AffineAMVPInfo}
    (h : affiVisEq a b) : affiVisEq (constructedInsert ao a) (constructedInsert ao b) := by
  unfold constructedInsert
  dsimp only
  split
  · exact insertTriple_affiVisEq _ _ _ _ h
  · exact h

theorem constructedInsert_numCand_le (ao : AffineAmvpOracle) (a : AffineAMVPInfo) :
    (constructedInsert ao a).numCand ≤ a.numCand + 1 := by
  unfold constructedInsert
  dsimp only
  split
  · exact insertTriple_numCand_le _ _ _ _ a
  · omega

theorem affineFallbackAppend_numCand (amvp : AMVPInfo) (i k : Nat) (a : AffineAMVPInfo) :
    (affineFallbackAppend amvp i k a).numCand = a.numCand + k := by
  induction k generalizing i a with
  | zero => rfl
  | succ n ih =>
    unfold affineFallbackAppend
    rw [ih]
    simp
    omega

theorem affineFallbackAppend_affiVisEq (amvp : AMVPInfo) (i k : Nat)
    {a b : AffineAMVPInfo} (h : affiVisEq a b) :
    affiVisEq (affineFallbackAppend amvp i k a) (affineFallbackAppend amvp i k b) := by
  induction k generalizing i a b with
  | zero => exact h
  | succ n ih =>
    obtain ⟨hn, hv⟩ := h
    unfold affineFallbackAppend
    refine ih _ ⟨by simp [hn], fun j hj => ?_⟩
    simp only at hj ⊢
    by_cases he : j = a.numCand
    · subst he
      simp [Function.update_apply, hn]
    · have hlt : j < a.numCand := by omega
      have he2 : j ≠ b.numCand := by rw [← hn]; exact he
      obtain ⟨x1, x2, x3⟩ := hv j hlt
      simp [Function.update_apply, he, he2, x1, x2, x3]

theorem fillAffineMvpCand_numCand (ao : AffineAmvpOracle) (o : AmvpOracle)
    (refIdx : Int) (init : AffineAMVPInfo) (h : 0 ≤ refIdx) :
    (fillAffineMvpCand ao o refIdx init).numCand = AMVP_MAX_NUM_CANDS := by
  unfold fillAffineMvpCand
  rw [if_neg (by omega)]
  dsimp only
  have hle : (inheritedLoop ao.affineType6 ao.inherited { init with numCand := 0 }).numCand ≤
      AMVP_MAX_NUM_CANDS := inheritedLoop_numCand_le _ _ _ (by simp [AMVP_MAX_NUM_CANDS])
  split
  next hge => rw [affinePrecShift_numCand]; omega
  next hge =>
    have hc := constructedInsert_numCand_le ao
      (inheritedLoop ao.affineType6 ao.inherited { init with numCand := 0 })
    split
    next hlt =>
      rw [affineFallbackAppend_numCand, fillMvpCand_numCand o refIdx _ h]
      rw [affinePrecShift_numCand] at hlt ⊢
      simp only [AMVP_MAX_NUM_CANDS] at *
      omega
    next hlt =>
      rw [affinePrecShift_numCand] at hlt ⊢
      simp only [AMVP_MAX_NUM_CANDS] at *
      omega

theorem fillAffineMvpCand_visEq (ao : AffineAmvpOracle) (o : AmvpOracle)
    (refIdx : Int) (init1 init2 : AffineAMVPInfo) (h : 0 ≤ refIdx) :
    affiVisEq (fillAffineMvpCand ao o refIdx init1) (fillAffineMvpCand ao o refIdx init2) := by
  have hr : ¬(refIdx < 0) := by omega
  unfold fillAffineMvpCand
  simp only [if_neg hr]
  have h0 : affiVisEq (inheritedLoop ao.affineType6 ao.inherited { init1 with numCand := 0 })
      (inheritedLoop ao.affineType6 ao.inherited { init2 with numCand := 0 }) :=
    inheritedLoop_affiVisEq _ _ ⟨rfl, fun i hi => by simp at hi⟩
  obtain ⟨hn0, hv0⟩ := h0
  rw [← hn0]
  by_cases hge : AMVP_MAX_NUM_CANDS ≤
      (inheritedLoop ao.affineType6 ao.inherited { init1 with numCand := 0 }).numCand
  · rw [if_pos hge, if_pos hge]
    exact affinePrecShift_affiVisEq ⟨hn0, hv0⟩
  · rw [if_neg hge, if_neg hge]
    have h1 := affinePrecShift_affiVisEq (constructedInsert_affiVisEq ao ⟨hn0, hv0⟩)
    obtain ⟨hn1, hv1⟩ := h1
    rw [← hn1]
    by_cases hlt : (affinePrecShift (constructedInsert ao
        (inheritedLoop ao.affineType6 ao.inherited { init1 with numCand := 0 }))).numCand < 2
    · rw [if_pos hlt, if_pos hlt]
      exact affineFallbackAppend_affiVisEq _ _ _ ⟨hn1, hv1⟩
    · rw [if_neg hlt, if_neg hlt]
      exact ⟨hn1, hv1⟩

theorem affiVisEq_affineAmvpList {a b : AffineAMVPInfo} (h : affiVisEq a b)
    (h2 : a.numCand = 2) : affineAmvpList a = affineAmvpList b := by
  obtain ⟨hn, hv⟩ := h
  obtain ⟨x1, y1, z1⟩ := hv 0 (by omega)
  obtain ⟨x2, y2, z2⟩ := hv 1 (by omega)
  simp [affineAmvpList, x1, y1, z1, x2, y2, z2]

/-- C6.  After `PU::fillMvpCand` (and `PU::fillAffineMvpCand`) returns on a
valid reference index (the `refIdx < 0` early exit is recorded separately as
claim C10), the list holds exactly `AMVP_MAX_NUM_CANDS = 2` entries —
zero-padded when fewer candidates were found, truncated when more — and the
derivation is deterministic and idempotent on unchanged neighbour state: the
visible two-entry list does not depend on the incoming buffer contents, so
re-running the derivation (even feeding its own output back in) yields the
identical list. -/
theorem fillMvpCand_exactly_two_and_idempotent
    (o : AmvpOracle) (ao : AffineAmvpOracle) (refIdx : Int)
    (init : AMVPInfo) (ainit : AffineAMVPInfo) (h : 0 ≤ refIdx) :
    (fillMvpCand o refIdx init).numCand = 2 ∧
    (fillAffineMvpCand ao o refIdx ainit).numCand = 2 ∧
    amvpList (fillMvpCand o refIdx (fillMvpCand o refIdx init)) =
      amvpList (fillMvpCand o refIdx init) ∧
    affineAmvpList (fillAffineMvpCand ao o refIdx (fillAffineMvpCand ao o refIdx ainit)) =
      affineAmvpList (fillAffineMvpCand ao o refIdx ainit) := by
  refine ⟨fillMvpCand_numCand o refIdx init h,
    fillAffineMvpCand_numCand ao o refIdx ainit h, ?_, ?_⟩
  · exact visEq_amvpList (fillMvpCand_visEq o refIdx _ _ h)
      (fillMvpCand_numCand o refIdx _ h)
  · exact affiVisEq_affineAmvpList (fillAffineMvpCand_visEq ao o refIdx _ _ h)
      (fillAffineMvpCand_numCand ao o refIdx _ h)

/-- Witness for C6 at concrete oracles with no candidates found: the lists are
still exactly two (zero-padded) entries and re-derivation reproduces them. -/
theorem fillMvpCand_exactly_two_and_idempotent_witness :
    (fillMvpCand amvpOracleW 0 amvpInitW).numCand = 2 ∧
    (fillAffineMvpCand affineOracleW amvpOracleW 0 affineInitW).numCand = 2 ∧
    amvpList (fillMvpCand amvpOracleW 0 (fillMvpCand amvpOracleW 0 amvpInitW)) =
      amvpList (fillMvpCand amvpOracleW 0 amvpInitW) ∧
    affineAmvpList (fillAffineMvpCand affineOracleW amvpOracleW 0
        (fillAffineMvpCand affineOracleW amvpOracleW 0 affineInitW)) =
      affineAmvpList (fillAffineMvpCand affineOracleW amvpOracleW 0 affineInitW) :=
  fillMvpCand_exactly_two_and_idempotent amvpOracleW affineOracleW 0 amvpInitW affineInitW
    (by decide)

/-- C10.  `PU::fillMvpCand` called with a negative reference index returns
immediately with `numCand = 0` and writes no candidate entry
(UnitTools.cpp:1267-1272); the exactly-two postcondition of AMVP derivation
therefore holds only under the precondition `refIdx ≥ 0`. -/
theorem fillMvpCand_negative_refIdx (o : AmvpOracle) (refIdx : Int) (init : AMVPInfo)
    (h : refIdx < 0) :
    (fillMvpCand o refIdx init).numCand = 0 ∧
    (fillMvpCand o refIdx init).mvCand = init.mvCand := by
  unfold fillMvpCand
  rw [if_pos h]
  exact ⟨rfl, rfl⟩

/-- Witness for C10 at `refIdx = -1`: no entry of the stale buffer is
overwritten. -/
theorem fillMvpCand_negative_refIdx_witness :
    (fillMvpCand amvpOracleW (-1) amvpInitW).numCand = 0 ∧
    (fillMvpCand amvpOracleW (-1) amvpInitW).mvCand 0 = ⟨9, 9⟩ := by
  have h := fillMvpCand_negative_refIdx amvpOracleW (-1) amvpInitW (by decide)
  exact ⟨h.1, by rw [h.2]; rfl⟩

/-- C3.  For every trial offered to the ledger via `EncCu::xCheckBestMode`,
whatever the ModeController decides: on (non-aborting) return the
entropy-coder context equals the node's start checkpoint
(`m_CurrCtx->start`); and when the trial is accepted, the temp and best
CodingStructure pointers are exchanged (a swap, no copy), the context as it
stood at acceptance is snapshotted as the new best checkpoint, and the
best-updated flag is set. -/
theorem xCheckBestMode_ledger_protocol (useResult : Bool) (s : LedgerState)
    (r : LedgerState × Bool) (hok : xCheckBestMode useResult s = .ok r) :
    r.1.cabacCtx = s.currCtxStart ∧
    (r.2 = true →
      r.1.tempCS = s.bestCS ∧ r.1.bestCS = s.tempCS ∧
      r.1.currCtxBest = s.cabacCtx ∧ r.1.bestModeUpdated = true) := by
  unfold xCheckBestMode at hok
  by_cases hem : s.tempCS.cusEmpty = true
  · rw [if_pos hem] at hok
    cases hok
    exact ⟨rfl, by intro h; cases h⟩
  · rw [if_neg hem] at hok
    by_cases hskip : s.tempCS.skipWithoutMerge = true
    · rw [if_pos hskip] at hok
      cases hok
    · rw [if_neg hskip] at hok
      by_cases hu : useResult = true
      · rw [if_pos hu] at hok
        cases hok
        exact ⟨rfl, fun _ => ⟨rfl, rfl, rfl, rfl⟩⟩
      · rw [if_neg hu] at hok
        cases hok
        exact ⟨rfl, by intro h; cases h⟩

/-- A concrete ledger state for the witnesses. -/
def ledgerW : LedgerState :=
  { tempCS := { id := 1, cost := 10, cusEmpty := false, skipWithoutMerge := false },
    bestCS := { id := 2, cost := 20, cusEmpty := false, skipWithoutMerge := false },
    cabacCtx := 33, currCtxStart := 44, currCtxBest := 55, bestModeUpdated := false }

/-- Witness for C3 at a concrete accepted trial. -/
theorem xCheckBestMode_ledger_protocol_witness :
    (xCheckBestMode true ledgerW =
      .ok ({ ledgerW with tempCS := ledgerW.bestCS, bestCS := ledgerW.tempCS,
                          currCtxBest := 33, bestModeUpdated := true,
                          cabacCtx := 44 }, true)) ∧
    ({ ledgerW with tempCS := ledgerW.bestCS, bestCS := ledgerW.tempCS,
                    currCtxBest := 33, bestModeUpdated := true,
                    cabacCtx := 44 } : LedgerState).cabacCtx = ledgerW.currCtxStart := by
  have h := xCheckBestMode_ledger_protocol true ledgerW
    ({ ledgerW with tempCS := ledgerW.bestCS, bestCS := ledgerW.tempCS,
                    currCtxBest := 33, bestModeUpdated := true,
                    cabacCtx := 44 }, true) (by rfl)
  exact ⟨by rfl, h.1⟩

/-- C2.  The final ledger offer of `EncCu::xCheckModeSplit` replaces the
node's best result only when the aggregated child cost is strictly lower
than the current best non-split cost; on a tie (or worse) the earlier-found
non-split result is kept unchanged and the call reports no update.  The
ModeController's comparison is modelled from the spec (§4.4 strict
ordering). -/
theorem xCheckModeSplit_strict_improvement (lambda fracBits dist : Int)
    (s : LedgerState) (r : LedgerState × Bool)
    (hok : xCheckModeSplitFinish lambda fracBits dist s = .ok r) :
    (s.bestCS.cost ≤ calcRdCost lambda fracBits dist →
      r.1.bestCS = s.bestCS ∧ r.2 = false) ∧
    (calcRdCost lambda fracBits dist < s.bestCS.cost ∧ s.tempCS.cusEmpty = false →
      r.1.bestCS = { s.tempCS with cost := calcRdCost lambda fracBits dist } ∧ r.2 = true) := by
  unfold xCheckModeSplitFinish xCheckBestMode useModeResult at hok
  dsimp only at hok
  simp only [decide_eq_true_eq] at hok
  constructor
  · intro hge
    have hnot : ¬(calcRdCost lambda fracBits dist < s.bestCS.cost) := by omega
    by_cases hem : s.tempCS.cusEmpty = true
    · rw [if_pos hem] at hok
      cases hok
      exact ⟨rfl, rfl⟩
    · rw [if_neg hem] at hok
      by_cases hskip : s.tempCS.skipWithoutMerge = true
      · rw [if_pos hskip] at hok
        cases hok
      · rw [if_neg hskip, if_neg hnot] at hok
        cases hok
        exact ⟨rfl, rfl⟩
  · rintro ⟨hlt, hem⟩
    rw [if_neg (by rw [hem]; exact Bool.false_ne_true)] at hok
    by_cases hskip : s.tempCS.skipWithoutMerge = true
    · rw [if_pos hskip] at hok
      cases hok
    · rw [if_neg hskip, if_pos hlt] at hok
      cases hok
      exact ⟨rfl, rfl⟩

/-- Witness for C2 at a tie: aggregated split cost `20` equals the stored
best cost `20`, the best structure is kept and no update is reported. -/
theorem xCheckModeSplit_strict_improvement_witness :
    xCheckModeSplitFinish 2 5 10 ledgerW =
      .ok ({ ledgerW with tempCS := { ledgerW.tempCS with cost := 20 },
                          cabacCtx := 44 }, false) ∧
    ({ ledgerW with tempCS := { ledgerW.tempCS with cost := 20 },
                    cabacCtx := 44 } : LedgerState).bestCS = ledgerW.bestCS := by
  have h := xCheckModeSplit_strict_improvement 2 5 10 ledgerW
    ({ ledgerW with tempCS := { ledgerW.tempCS with cost := 20 }, cabacCtx := 44 }, false)
    (by rfl)
  refine ⟨by rfl, ?_⟩
  exact (h.1 (by decide)).1

/-- C9.  When every trial at a node fails (both `tempCS->cost` and
`bestCS->cost` still carry the `MAX_DOUBLE` sentinel), `EncCu::xCompressCU`
returns without finalizing the node; and when enumeration finishes past that
early return with an empty best CU list, an undecided prediction mode, or a
sentinel best cost, the finishing section aborts (the empty list dies at the
`cus.back()` access of line 992, the other two at the `"No possible encoding
found"` CHECKs) — it never hands a finalized result to the parent. -/
theorem xCompressCU_no_viable_mode_fatal (tempCost bestCost : Int)
    (bestCusPredModes : List Nat) :
    (tempCost = MAX_DOUBLE ∧ bestCost = MAX_DOUBLE →
      xCompressCU_finish tempCost bestCost bestCusPredModes = .ok .earlyReturn) ∧
    (¬(tempCost = MAX_DOUBLE ∧ bestCost = MAX_DOUBLE) →
      (bestCusPredModes = [] ∨ bestCost = MAX_DOUBLE) →
      ∃ msg, xCompressCU_finish tempCost bestCost bestCusPredModes = .error msg) := by
  constructor
  · intro hboth
    unfold xCompressCU_finish
    rw [if_pos hboth]
  · intro hnot hbad
    unfold xCompressCU_finish
    rw [if_neg hnot]
    rcases hbad with hnil | hmax
    · subst hnil
      exact ⟨_, rfl⟩
    · cases bestCusPredModes with
      | nil => exact ⟨_, rfl⟩
      | cons p0 rest =>
        dsimp only
        by_cases hp : p0 = NUMBER_OF_PREDICTION_MODES
        · rw [if_pos hp]
          exact ⟨_, rfl⟩
        · rw [if_neg hp, if_pos hmax]
          exact ⟨_, rfl⟩

/-- Witness for C9: the both-sentinel early return, and a fatal outcome for a
node that finished with a sentinel-cost best region. -/
theorem xCompressCU_no_viable_mode_fatal_witness :
    xCompressCU_finish MAX_DOUBLE MAX_DOUBLE [0] = .ok .earlyReturn ∧
    ∃ msg, xCompressCU_finish 0 MAX_DOUBLE [0] = .error msg := by
  constructor
  · exact (xCompressCU_no_viable_mode_fatal MAX_DOUBLE MAX_DOUBLE [0]).1 ⟨rfl, rfl⟩
  · exact (xCompressCU_no_viable_mode_fatal 0 MAX_DOUBLE [0]).2
      (by intro h; exact absurd h.1 (by decide)) (Or.inr rfl)

/-! ## Helper lemmas for the merge-list pipeline: each phase preserves
`numValidMergeCand` (and, except the ATMVP insertion, the merge-type array),
and the candidate count stays below the signalled maximum on every
non-returning path -/

theorem insertSpatial_numValid (b : Bool) (mi : MotionInfo) (cnt : Nat) (c : MergeCtx) :
    (insertSpatial b mi cnt c).numValidMergeCand = c.numValidMergeCand := by
  unfold insertSpatial
  split <;> rfl

theorem insertSpatial_mrgType (b : Bool) (mi : MotionInfo) (cnt : Nat) (c : MergeCtx) :
    (insertSpatial b mi cnt c).mrgTypeNeighbours = c.mrgTypeNeighbours := by
  unfold insertSpatial
  split <;> rfl

theorem spatialStep_cases (inp : MergeInput) (mi? : Option MotionInfo)
    (accept : MotionInfo → Bool) (s : MergeCtx × Nat) :
    (∃ c, spatialStep inp mi? accept s = .error c ∧
      c.numValidMergeCand = s.1.numValidMergeCand ∧
      c.mrgTypeNeighbours = s.1.mrgTypeNeighbours) ∨
    (∃ s', spatialStep inp mi? accept s = .ok s' ∧
      s'.1.numValidMergeCand = s.1.numValidMergeCand ∧
      s'.1.mrgTypeNeighbours = s.1.mrgTypeNeighbours ∧
      s.2 ≤ s'.2 ∧ s'.2 ≤ s.2 + 1) := by
  unfold spatialStep
  cases mi? with
  | none => right; exact ⟨s, rfl, rfl, rfl, le_refl _, Nat.le_succ _⟩
  | some mi =>
    dsimp only
    by_cases ha : accept mi = true
    · rw [if_pos ha]
      by_cases hf : inp.mrgCandIdx = (s.2 : Int) ∧ inp.canFastExit = true
      · rw [if_pos hf]
        exact Or.inl ⟨_, rfl, insertSpatial_numValid _ _ _ _, insertSpatial_mrgType _ _ _ _⟩
      · rw [if_neg hf]
        exact Or.inr ⟨_, rfl, insertSpatial_numValid _ _ _ _, insertSpatial_mrgType _ _ _ _,
          Nat.le_succ _, le_refl _⟩
    · rw [if_neg ha]
      right; exact ⟨s, rfl, rfl, rfl, le_refl _, Nat.le_succ _⟩

theorem checkFull_cases (maxN : Nat) (s : MergeCtx × Nat) :
    (checkFull maxN s = .error s.1 ∧ s.2 = maxN) ∨
    (checkFull maxN s = .ok s ∧ s.2 ≠ maxN) := by
  unfold checkFull
  by_cases h : s.2 = maxN
  · rw [if_pos h]; exact Or.inl ⟨rfl, h⟩
  · rw [if_neg h]; exact Or.inr ⟨rfl, h⟩

theorem insertAtmvp_numValid (b : Bool) (mi : MotionInfo) (cnt : Nat) (c : MergeCtx) :
    (insertAtmvp b mi cnt c).numValidMergeCand = c.numValidMergeCand := by
  unfold insertAtmvp
  dsimp only
  exact insertSpatial_numValid b mi cnt c

theorem insertAtmvp_mrgType (b : Bool) (mi : MotionInfo) (cnt : Nat) (c : MergeCtx) :
    (insertAtmvp b mi cnt c).mrgTypeNeighbours =
      Function.update c.mrgTypeNeighbours cnt MRG_TYPE_SUBPU_ATMVP := by
  unfold insertAtmvp
  dsimp only
  rw [insertSpatial_mrgType]

theorem atmvpStep_cases (inp : MergeInput) (s : MergeCtx × Nat) :
    (∃ c, atmvpStep inp s = .error c ∧
      c.numValidMergeCand = s.1.numValidMergeCand) ∨
    (∃ r, atmvpStep inp s = .ok r ∧
      r.1.1.numValidMergeCand = s.1.numValidMergeCand ∧
      s.2 ≤ r.1.2 ∧ r.1.2 ≤ s.2 + 1 ∧ r.1.2 ≠ inp.maxNumMergeCand ∨
      atmvpStep inp s = .ok (s, none)) := by
  unfold atmvpStep
  by_cases he : inp.enableSubPuMvp = true ∧ inp.tmvpEnabled = true
  · rw [if_pos he]
    cases hm : (if inp.useATMVP then inp.atmvp else none) with
    | none => right; exact ⟨(s, none), Or.inr rfl⟩
    | some mi =>
      dsimp only
      by_cases hf : inp.mrgCandIdx = (s.2 : Int)
      · rw [if_pos hf]
        exact Or.inl ⟨_, rfl, insertAtmvp_numValid _ _ _ _⟩
      · rw [if_neg hf]
        by_cases hful : s.2 + 1 = inp.maxNumMergeCand
        · rw [if_pos hful]
          exact Or.inl ⟨_, rfl, insertAtmvp_numValid _ _ _ _⟩
        · rw [if_neg hful]
          right
          exact ⟨_, Or.inl ⟨rfl, insertAtmvp_numValid _ _ _ _, Nat.le_succ _, le_refl _, hful⟩⟩
  · rw [if_neg he]
    right; exact ⟨(s, none), Or.inr rfl⟩

theorem b2Step_cases (inp : MergeInput) (s : MergeCtx × Nat) :
    (∃ c, b2Step inp s = .error c ∧
      c.numValidMergeCand = s.1.numValidMergeCand ∧
      c.mrgTypeNeighbours = s.1.mrgTypeNeighbours) ∨
    (∃ s', b2Step inp s = .ok s' ∧
      s'.1.numValidMergeCand = s.1.numValidMergeCand ∧
      s'.1.mrgTypeNeighbours = s.1.mrgTypeNeighbours ∧
      s.2 ≤ s'.2 ∧ s'.2 ≤ s.2 + 1) := by
  unfold b2Step
  by_cases h : s.2 < (if inp.enableSubPuMvp then 6 else 4)
  · rw [if_pos h]
    exact spatialStep_cases inp inp.b2 _ s
  · rw [if_neg h]
    right; exact ⟨s, rfl, rfl, rfl, le_refl _, Nat.le_succ _⟩

theorem tmvpMergeStep_cases (inp : MergeInput) (pos : Option Nat) (s : MergeCtx × Nat) :
    (∃ c, tmvpMergeStep inp pos s = .error c ∧
      c.numValidMergeCand = s.1.numValidMergeCand ∧
      c.mrgTypeNeighbours = s.1.mrgTypeNeighbours) ∨
    (∃ s', tmvpMergeStep inp pos s = .ok s' ∧
      s'.1.numValidMergeCand = s.1.numValidMergeCand ∧
      s'.1.mrgTypeNeighbours = s.1.mrgTypeNeighbours ∧
      s.2 ≤ s'.2 ∧ s'.2 ≤ s.2 + 1 ∧ s'.2 ≠ inp.maxNumMergeCand) := by
  unfold tmvpMergeStep
  by_cases ht : inp.tmvpEnabled = true
  case neg =>
    rw [if_neg ht]
    rcases checkFull_cases inp.maxNumMergeCand s with ⟨he, h2⟩ | ⟨he, h2⟩
    · rw [he]; exact Or.inl ⟨s.1, rfl, rfl, rfl⟩
    · rw [he]; exact Or.inr ⟨s, rfl, rfl, rfl, le_refl _, Nat.le_succ _, h2⟩
  case pos =>
    rw [if_pos ht]
    dsimp only
    -- the probe writes touch only mvFieldNeighbours; name the probed context
    generalize hq :
      (match inp.tmvpL0 with
        | some mv =>
          ({ s.1 with
             mvFieldNeighbours := Function.update s.1.mvFieldNeighbours (2 * s.2) ⟨mv, 0⟩ }, 1)
        | none => (s.1, 0) : MergeCtx × Nat) = p0
    have hp0 : p0.1.numValidMergeCand = s.1.numValidMergeCand ∧
        p0.1.mrgTypeNeighbours = s.1.mrgTypeNeighbours := by
      cases hm : inp.tmvpL0 <;> rw [hm] at hq <;> cases hq <;> exact ⟨rfl, rfl⟩
    generalize hq1 :
      (if inp.isInterB then
        match inp.tmvpL1 with
        | some mv =>
          ({ p0.1 with
             mvFieldNeighbours := Function.update p0.1.mvFieldNeighbours (2 * s.2 + 1) ⟨mv, 0⟩ },
            p0.2 ||| 2)
        | none => p0
      else p0) = p1
    have hp1 : p1.1.numValidMergeCand = s.1.numValidMergeCand ∧
        p1.1.mrgTypeNeighbours = s.1.mrgTypeNeighbours := by
      by_cases hb : inp.isInterB = true
      · rw [if_pos hb] at hq1
        cases hm : inp.tmvpL1 <;> rw [hm] at hq1 <;> cases hq1
        · exact hp0
        · exact ⟨hp0.1, hp0.2⟩
      · rw [if_neg hb] at hq1
        cases hq1
        exact hp0
    by_cases hd : p1.2 ≠ 0
    case neg =>
      rw [if_neg hd]
      rcases checkFull_cases inp.maxNumMergeCand (p1.1, s.2) with ⟨he, h2⟩ | ⟨he, h2⟩
      · rw [he]; exact Or.inl ⟨p1.1, rfl, hp1.1, hp1.2⟩
      · rw [he]
        exact Or.inr ⟨(p1.1, s.2), rfl, hp1.1, hp1.2, le_refl _, Nat.le_succ _, h2⟩
    case pos =>
      rw [if_pos hd]
      split
      case isTrue =>
        by_cases hf : inp.mrgCandIdx = (s.2 : Int) ∧ inp.canFastExit = true
        · rw [if_pos hf]
          exact Or.inl ⟨_, rfl, hp1.1, hp1.2⟩
        · rw [if_neg hf]
          rcases checkFull_cases inp.maxNumMergeCand
              ({ p1.1 with interDirNeighbours :=
                Function.update p1.1.interDirNeighbours s.2 p1.2 }, s.2 + 1) with
            ⟨he, h2⟩ | ⟨he, h2⟩
          · rw [he]; exact Or.inl ⟨_, rfl, hp1.1, hp1.2⟩
          · rw [he]
            exact Or.inr ⟨_, rfl, hp1.1, hp1.2, Nat.le_succ _, le_refl _, h2⟩
      case isFalse =>
        rcases checkFull_cases inp.maxNumMergeCand (p1.1, s.2) with ⟨he, h2⟩ | ⟨he, h2⟩
        · rw [he]; exact Or.inl ⟨p1.1, rfl, hp1.1, hp1.2⟩
        · rw [he]
          exact Or.inr ⟨(p1.1, s.2), rfl, hp1.1, hp1.2, le_refl _, Nat.le_succ _, h2⟩

theorem estep_ok {α β : Type} (a : α) (f : α → Except MergeCtx β) :
    estep (.ok a) f = f a := rfl

theorem estep_error {α β : Type} (c : MergeCtx) (f : α → Except MergeCtx β) :
    estep (.error c : Except MergeCtx α) f = .error c := rfl

theorem pairwiseListPass_preserved (c : MergeCtx) (cnt i j refListId interDir : Nat) :
    (pairwiseListPass c cnt i j refListId interDir).1.numValidMergeCand = c.numValidMergeCand ∧
    (pairwiseListPass c cnt i j refListId interDir).1.mrgTypeNeighbours = c.mrgTypeNeighbours := by
  unfold pairwiseListPass
  dsimp only
  split
  · exact ⟨rfl, rfl⟩
  · split
    · exact ⟨rfl, rfl⟩
    · split
      · exact ⟨rfl, rfl⟩
      · exact ⟨rfl, rfl⟩

theorem pairwiseBody_cases (inp : MergeInput) (idx : Nat) (s : MergeCtx × Nat) :
    (pairwiseBody inp idx s).1.numValidMergeCand = s.1.numValidMergeCand ∧
    (pairwiseBody inp idx s).1.mrgTypeNeighbours = s.1.mrgTypeNeighbours ∧
    s.2 ≤ (pairwiseBody inp idx s).2 ∧ (pairwiseBody inp idx s).2 ≤ s.2 + 1 := by
  unfold pairwiseBody
  dsimp only
  generalize hq0 : pairwiseListPass _ s.2 _ _ 0 0 = q0
  have h0 := pairwiseListPass_preserved
    { s.1 with
      mvFieldNeighbours := Function.update
        (Function.update s.1.mvFieldNeighbours (s.2 * 2) ⟨⟨0, 0⟩, NOT_VALID⟩)
        (s.2 * 2 + 1) ⟨⟨0, 0⟩, NOT_VALID⟩ }
    s.2 (PRIORITY_LIST0.getD idx 0) (PRIORITY_LIST1.getD idx 0) 0 0
  rw [hq0] at h0
  generalize hq1 : (if inp.isInterB = true then
    pairwiseListPass q0.1 s.2 (PRIORITY_LIST0.getD idx 0) (PRIORITY_LIST1.getD idx 0) 1 q0.2
    else q0) = q1
  have h1 : q1.1.numValidMergeCand = s.1.numValidMergeCand ∧
      q1.1.mrgTypeNeighbours = s.1.mrgTypeNeighbours := by
    by_cases hb : inp.isInterB = true
    · rw [if_pos hb] at hq1
      have h2 := pairwiseListPass_preserved q0.1 s.2 (PRIORITY_LIST0.getD idx 0)
        (PRIORITY_LIST1.getD idx 0) 1 q0.2
      rw [hq1] at h2
      exact ⟨h2.1.trans h0.1, h2.2.trans h0.2⟩
    · rw [if_neg hb] at hq1
      cases hq1
      exact h0
  split
  · exact ⟨h1.1, h1.2, Nat.le_succ _, le_refl _⟩
  · exact ⟨h1.1, h1.2, le_refl _, Nat.le_succ _⟩

theorem pairwiseLoop_cases (inp : MergeInput) (rem idx : Nat) (s : MergeCtx × Nat)
    (h : s.2 ≤ inp.maxNumMergeCand) :
    (pairwiseLoop inp rem idx s).1.numValidMergeCand = s.1.numValidMergeCand ∧
    (pairwiseLoop inp rem idx s).1.mrgTypeNeighbours = s.1.mrgTypeNeighbours ∧
    (pairwiseLoop inp rem idx s).2 ≤ inp.maxNumMergeCand := by
  induction rem generalizing idx s with
  | zero => exact ⟨rfl, rfl, h⟩
  | succ n ih =>
    unfold pairwiseLoop
    by_cases hf : s.2 = inp.maxNumMergeCand
    · rw [if_pos hf]
      exact ⟨rfl, rfl, h⟩
    · rw [if_neg hf]
      have hb := pairwiseBody_cases inp idx s
      have := ih (idx + 1) (pairwiseBody inp idx s) (by omega)
      exact ⟨this.1.trans hb.1, this.2.1.trans hb.2.1, this.2.2⟩

theorem pairwiseStep_cases (inp : MergeInput) (s : MergeCtx × Nat)
    (h : s.2 ≤ inp.maxNumMergeCand) :
    (∃ c, pairwiseStep inp s = .error c ∧
      c.numValidMergeCand = s.1.numValidMergeCand ∧
      c.mrgTypeNeighbours = s.1.mrgTypeNeighbours) ∨
    (∃ s', pairwiseStep inp s = .ok s' ∧
      s'.1.numValidMergeCand = s.1.numValidMergeCand ∧
      s'.1.mrgTypeNeighbours = s.1.mrgTypeNeighbours ∧ s'.2 < inp.maxNumMergeCand) := by
  unfold pairwiseStep
  have hl := pairwiseLoop_cases inp (min s.2 4 * (min s.2 4 - 1) / 2) 0 s h
  by_cases hf : (pairwiseLoop inp (min s.2 4 * (min s.2 4 - 1) / 2) 0 s).2 = inp.maxNumMergeCand
  · rw [if_pos hf]
    exact Or.inl ⟨_, rfl, hl.1, hl.2.1⟩
  · rw [if_neg hf]
    exact Or.inr ⟨_, rfl, hl.1, hl.2.1, by omega⟩

theorem zeroFillLoop_preserved (b : Bool) (maxN : Nat) (n : Int) (fuel : Nat)
    (c : MergeCtx) (addr : Nat) (r refcnt : Int) :
    (zeroFillLoop b maxN n fuel c addr r refcnt).1.numValidMergeCand = c.numValidMergeCand ∧
    (zeroFillLoop b maxN n fuel c addr r refcnt).1.mrgTypeNeighbours = c.mrgTypeNeighbours := by
  have hw : ∀ (addr : Nat) (r : Int) (c : MergeCtx),
      (zeroFillWrite b addr r c).numValidMergeCand = c.numValidMergeCand ∧
      (zeroFillWrite b addr r c).mrgTypeNeighbours = c.mrgTypeNeighbours := by
    intro addr r c
    unfold zeroFillWrite
    split <;> exact ⟨rfl, rfl⟩
  induction fuel generalizing c addr r refcnt with
  | zero => exact ⟨rfl, rfl⟩
  | succ k ih =>
    unfold zeroFillLoop
    by_cases ha : addr < maxN
    · rw [if_pos ha]
      split
      · have h1 := ih (zeroFillWrite b addr r c) (addr + 1) 0 refcnt
        have h2 := hw addr r c
        exact ⟨h1.1.trans h2.1, h1.2.trans h2.2⟩
      · have h1 := ih (zeroFillWrite b addr r c) (addr + 1) (r + 1) (refcnt + 1)
        have h2 := hw addr r c
        exact ⟨h1.1.trans h2.1, h1.2.trans h2.2⟩
    · rw [if_neg ha]
      exact ⟨rfl, rfl⟩

theorem zeroFillLoop_addr (b : Bool) (maxN : Nat) (n : Int) (fuel : Nat)
    (c : MergeCtx) (addr : Nat) (r refcnt : Int) (h : addr + fuel = maxN) :
    (zeroFillLoop b maxN n fuel c addr r refcnt).2 = maxN := by
  induction fuel generalizing c addr r refcnt with
  | zero => simpa using h
  | succ k ih =>
    unfold zeroFillLoop
    rw [if_pos (by omega)]
    split
    · exact ih _ _ _ _ (by omega)
    · exact ih _ _ _ _ (by omega)

theorem mergeSpatialPhase_cases (inp : MergeInput) (c0 : MergeCtx)
    (hmax : 1 ≤ inp.maxNumMergeCand) :
    (∃ c, mergeSpatialPhase inp c0 = .error c ∧
      c.numValidMergeCand = c0.numValidMergeCand ∧
      c.mrgTypeNeighbours = c0.mrgTypeNeighbours) ∨
    (∃ s', mergeSpatialPhase inp c0 = .ok s' ∧
      s'.1.numValidMergeCand = c0.numValidMergeCand ∧
      s'.1.mrgTypeNeighbours = c0.mrgTypeNeighbours ∧ s'.2 < inp.maxNumMergeCand) := by
  unfold mergeSpatialPhase
  rcases spatialStep_cases inp inp.a1 (fun _ => true) (c0, 0) with
    ⟨c, he, hn, hm⟩ | ⟨s1, he, hn, hm, hl, hu⟩
  · simp only [he, estep_error]
    exact Or.inl ⟨c, rfl, hn, hm⟩
  · simp only [he, estep_ok]
    rcases checkFull_cases inp.maxNumMergeCand s1 with ⟨he2, hq⟩ | ⟨he2, hq⟩
    · simp only [he2, estep_ok, estep_error]
      exact Or.inl ⟨s1.1, rfl, hn, hm⟩
    · simp only [he2, estep_ok, estep_error]
      have hb1 : s1.2 < inp.maxNumMergeCand := by omega
      rcases spatialStep_cases inp inp.b1 (fun mi => diffFrom inp.a1 mi) s1 with
        ⟨c, he3, hn3, hm3⟩ | ⟨s2, he3, hn3, hm3, hl3, hu3⟩
      · simp only [he3, estep_ok, estep_error]
        exact Or.inl ⟨c, rfl, hn3.trans hn, hm3.trans hm⟩
      · simp only [he3, estep_ok, estep_error]
        rcases checkFull_cases inp.maxNumMergeCand s2 with ⟨he4, hq4⟩ | ⟨he4, hq4⟩
        · simp only [he4, estep_ok, estep_error]
          exact Or.inl ⟨s2.1, rfl, hn3.trans hn, hm3.trans hm⟩
        · simp only [he4, estep_ok, estep_error]
          have hb2 : s2.2 < inp.maxNumMergeCand := by omega
          rcases spatialStep_cases inp inp.b0 (fun mi => diffFrom inp.b1 mi) s2 with
            ⟨c, he5, hn5, hm5⟩ | ⟨s3, he5, hn5, hm5, hl5, hu5⟩
          · simp only [he5, estep_ok, estep_error]
            exact Or.inl ⟨c, rfl, hn5.trans (hn3.trans hn), hm5.trans (hm3.trans hm)⟩
          · simp only [he5, estep_ok, estep_error]
            rcases checkFull_cases inp.maxNumMergeCand s3 with ⟨he6, hq6⟩ | ⟨he6, hq6⟩
            · simp only [he6, estep_ok, estep_error]
              exact Or.inl ⟨s3.1, rfl, hn5.trans (hn3.trans hn), hm5.trans (hm3.trans hm)⟩
            · simp only [he6, estep_ok, estep_error]
              have hb3 : s3.2 < inp.maxNumMergeCand := by omega
              rcases spatialStep_cases inp inp.a0 (fun mi => diffFrom inp.a1 mi) s3 with
                ⟨c, he7, hn7, hm7⟩ | ⟨s4, he7, hn7, hm7, hl7, hu7⟩
              · simp only [he7, estep_ok, estep_error]
                exact Or.inl ⟨c, rfl, hn7.trans (hn5.trans (hn3.trans hn)),
                  hm7.trans (hm5.trans (hm3.trans hm))⟩
              · simp only [he7, estep_ok, estep_error]
                rcases checkFull_cases inp.maxNumMergeCand s4 with ⟨he8, hq8⟩ | ⟨he8, hq8⟩
                · simp only [he8, estep_ok, estep_error]
                  exact Or.inl ⟨s4.1, rfl, hn7.trans (hn5.trans (hn3.trans hn)),
                    hm7.trans (hm5.trans (hm3.trans hm))⟩
                · simp only [he8, estep_ok, estep_error]
                  exact Or.inr ⟨s4, rfl, hn7.trans (hn5.trans (hn3.trans hn)),
                    hm7.trans (hm5.trans (hm3.trans hm)), by omega⟩


theorem mergeFinalize_error (inp : MergeInput) (c : MergeCtx) :
    mergeFinalize inp (.error c) = c := rfl

theorem mergeFinalize_tail_numValid (inp : MergeInput) (sp : (MergeCtx × Nat) × Option Nat)
    (hn : sp.1.1.numValidMergeCand = inp.maxNumMergeCand)
    (hcnt : sp.1.2 < inp.maxNumMergeCand) :
    (mergeFinalize inp (mergeTail inp sp)).numValidMergeCand = inp.maxNumMergeCand := by
  unfold mergeTail
  rcases b2Step_cases inp sp.1 with ⟨c, he, hnn, _⟩ | ⟨s2, he, hn2, _, hl2, hu2⟩
  · simp only [he, estep_error, mergeFinalize_error]
    exact hnn.trans hn
  · simp only [he, estep_ok]
    rcases checkFull_cases inp.maxNumMergeCand s2 with ⟨he2, hq2⟩ | ⟨he2, hq2⟩
    · simp only [he2, estep_error, mergeFinalize_error]
      exact hn2.trans hn
    · simp only [he2, estep_ok]
      have hb2 : s2.2 < inp.maxNumMergeCand := by omega
      rcases tmvpMergeStep_cases inp sp.2 s2 with
        ⟨c, he3, hn3, _⟩ | ⟨s3, he3, hn3, _, hl3, hu3, hq3⟩
      · simp only [he3, estep_error, mergeFinalize_error]
        exact hn3.trans (hn2.trans hn)
      · simp only [he3, estep_ok]
        have hb3 : s3.2 < inp.maxNumMergeCand := by omega
        rcases pairwiseStep_cases inp s3 (by omega) with
          ⟨c, he4, hn4, _⟩ | ⟨s4, he4, hn4, _, hb4⟩
        · simp only [he4, estep_error, mergeFinalize_error]
          exact hn4.trans (hn3.trans (hn2.trans hn))
        · simp only [he4]
          unfold mergeFinalize
          cases s4 with
          | mk c4 cnt4 =>
            dsimp only
            rw [zeroFillLoop_addr]
            simp only at hb4
            omega

theorem mergeRestPhase_numValid (inp : MergeInput) (s : MergeCtx × Nat)
    (hns : s.1.numValidMergeCand = inp.maxNumMergeCand)
    (hcnt : s.2 < inp.maxNumMergeCand) :
    (mergeRestPhase inp s).numValidMergeCand = inp.maxNumMergeCand := by
  unfold mergeRestPhase
  rcases atmvpStep_cases inp s with ⟨c, he, hn⟩ | ⟨r, hr⟩
  · simp only [he, estep_error, mergeFinalize_error]
    exact hn.trans hns
  · rcases hr with ⟨he, hn, hl, hu, hne⟩ | he
    · simp only [he, estep_ok]
      exact mergeFinalize_tail_numValid inp r (hn.trans hns) (by omega)
    · simp only [he, estep_ok]
      exact mergeFinalize_tail_numValid inp (s, none) hns hcnt

theorem mergeCtxInit_numValid (maxN : Nat) (c : MergeCtx) :
    (mergeCtxInit maxN c).numValidMergeCand = maxN := rfl

theorem getInterMergeCandidates_numValid (inp : MergeInput) (mrgCtx : MergeCtx)
    (hmax : 1 ≤ inp.maxNumMergeCand) :
    (getInterMergeCandidates inp mrgCtx).numValidMergeCand = inp.maxNumMergeCand := by
  unfold getInterMergeCandidates
  rcases mergeSpatialPhase_cases inp (mergeCtxInit inp.maxNumMergeCand mrgCtx) hmax with
    ⟨c, he, hn, _⟩ | ⟨s1, he, hn, _, hcnt⟩
  · rw [he]
    exact hn.trans (mergeCtxInit_numValid _ _)
  · rw [he]
    exact mergeRestPhase_numValid inp s1 (hn.trans (mergeCtxInit_numValid _ _)) hcnt

/-- C1, counterexample.  The claim's pairwise-distinctness conjunct is false
on the code: with signalled maximum 2, a single reference picture and a
zero-motion list-0 left neighbour, the zero-motion fill writes a second
candidate that is motion-identical to candidate 0 in every compared
component (inter direction and both per-list (vector, refIdx) pairs), while
`numValidMergeCand = 2` declares both meaningful. -/
theorem mergeList_duplicate_counterexample :
    (getInterMergeCandidates mergeInputC1ctr zeroMergeCtx).numValidMergeCand = 2 ∧
    (getInterMergeCandidates mergeInputC1ctr zeroMergeCtx).interDirNeighbours 0 =
      (getInterMergeCandidates mergeInputC1ctr zeroMergeCtx).interDirNeighbours 1 ∧
    (getInterMergeCandidates mergeInputC1ctr zeroMergeCtx).mvFieldNeighbours 0 =
      (getInterMergeCandidates mergeInputC1ctr zeroMergeCtx).mvFieldNeighbours 2 ∧
    (getInterMergeCandidates mergeInputC1ctr zeroMergeCtx).mvFieldNeighbours 1 =
      (getInterMergeCandidates mergeInputC1ctr zeroMergeCtx).mvFieldNeighbours 3 := by
  decide

/-- C1 (amended).  For every merge-candidate derivation with a signalled
maximum of at least 1, `0 ≤ numValidMergeCand ≤ getMaxNumMergeCand()` holds —
indeed `numValidMergeCand` always equals the signalled maximum, on early
returns (where it keeps its preset) as well as after the zero-motion fill.
The claim's second conjunct (no two candidates below `numValidMergeCand` are
motion-identical) does not hold and is dropped: the redundancy rule only
compares each spatial candidate against selected earlier neighbours, and
zero-motion fill (see the counterexample), pairwise-average and TMVP entries
are not compared against the existing list at all. -/
theorem mergeList_count_bound (inp : MergeInput) (mrgCtx : MergeCtx)
    (hmax : 1 ≤ inp.maxNumMergeCand) :
    (getInterMergeCandidates inp mrgCtx).numValidMergeCand ≤ inp.maxNumMergeCand ∧
    (getInterMergeCandidates inp mrgCtx).numValidMergeCand = inp.maxNumMergeCand := by
  have h := getInterMergeCandidates_numValid inp mrgCtx hmax
  exact ⟨le_of_eq h, h⟩

/-- Witness for amended C1 at the only-A1 scenario input with maximum 3. -/
theorem mergeList_count_bound_witness :
    (getInterMergeCandidates (mergeInputOnlyA1 3 1 miA1C8) zeroMergeCtx).numValidMergeCand ≤ 3 ∧
    (getInterMergeCandidates (mergeInputOnlyA1 3 1 miA1C8) zeroMergeCtx).numValidMergeCand = 3 :=
  mergeList_count_bound (mergeInputOnlyA1 3 1 miA1C8) zeroMergeCtx (by decide)

theorem mergeFinalize_tail_mrgType (inp : MergeInput) (sp : (MergeCtx × Nat) × Option Nat)
    (hcnt : sp.1.2 < inp.maxNumMergeCand) :
    (mergeFinalize inp (mergeTail inp sp)).mrgTypeNeighbours = sp.1.1.mrgTypeNeighbours := by
  unfold mergeTail
  rcases b2Step_cases inp sp.1 with ⟨c, he, _, hm⟩ | ⟨s2, he, _, hm2, hl2, hu2⟩
  · simp only [he, estep_error, mergeFinalize_error]
    exact hm
  · simp only [he, estep_ok]
    rcases checkFull_cases inp.maxNumMergeCand s2 with ⟨he2, hq2⟩ | ⟨he2, hq2⟩
    · simp only [he2, estep_error, mergeFinalize_error]
      exact hm2
    · simp only [he2, estep_ok]
      rcases tmvpMergeStep_cases inp sp.2 s2 with
        ⟨c, he3, _, hm3⟩ | ⟨s3, he3, _, hm3, hl3, hu3, hq3⟩
      · simp only [he3, estep_error, mergeFinalize_error]
        exact hm3.trans hm2
      · simp only [he3, estep_ok]
        rcases pairwiseStep_cases inp s3 (by omega) with
          ⟨c, he4, _, hm4⟩ | ⟨s4, he4, _, hm4, hb4⟩
        · simp only [he4, estep_error, mergeFinalize_error]
          exact hm4.trans (hm3.trans hm2)
        · simp only [he4]
          unfold mergeFinalize
          cases s4 with
          | mk c4 cnt4 =>
            dsimp only
            rw [(zeroFillLoop_preserved _ _ _ _ _ _ _ _).2]
            exact hm4.trans (hm3.trans hm2)

theorem mergeCtxInit_mrgType (maxN : Nat) (c : MergeCtx) (i : Nat) (h : i < maxN) :
    (mergeCtxInit maxN c).mrgTypeNeighbours i = MRG_TYPE_DEFAULT_N := by
  simp [mergeCtxInit, h]

theorem atmvpStep_insert (inp : MergeInput) (s : MergeCtx × Nat) (mi : MotionInfo)
    (hE : inp.enableSubPuMvp = true) (hT : inp.tmvpEnabled = true)
    (hU : inp.useATMVP = true) (hA : inp.atmvp = some mi)
    (hidx : inp.mrgCandIdx = -1) :
    (atmvpStep inp s = .error (insertAtmvp inp.isInterB mi s.2 s.1) ∧
      s.2 + 1 = inp.maxNumMergeCand) ∨
    (atmvpStep inp s = .ok ((insertAtmvp inp.isInterB mi s.2 s.1, s.2 + 1), some s.2) ∧
      s.2 + 1 ≠ inp.maxNumMergeCand) := by
  unfold atmvpStep
  rw [if_pos ⟨hE, hT⟩]
  have hscr : (if inp.useATMVP = true then inp.atmvp else none) = some mi := by
    rw [if_pos hU]
    exact hA
  simp only [hscr]
  have hne : ¬(inp.mrgCandIdx = (s.2 : Int)) := by
    rw [hidx]
    omega
  rw [if_neg hne]
  by_cases hful : s.2 + 1 = inp.maxNumMergeCand
  · rw [if_pos hful]
    exact Or.inl ⟨rfl, hful⟩
  · rw [if_neg hful]
    exact Or.inr ⟨rfl, hful⟩

theorem atmvpStep_skip (inp : MergeInput) (s : MergeCtx × Nat)
    (h : ¬(inp.enableSubPuMvp = true ∧ inp.tmvpEnabled = true ∧
        inp.useATMVP = true ∧ inp.atmvp ≠ none)) :
    atmvpStep inp s = .ok (s, none) := by
  unfold atmvpStep
  by_cases h1 : inp.enableSubPuMvp = true ∧ inp.tmvpEnabled = true
  · rw [if_pos h1]
    have hscr : (if inp.useATMVP = true then inp.atmvp else none) = none := by
      by_cases hu : inp.useATMVP = true
      · rw [if_pos hu]
        by_cases ha : inp.atmvp = none
        · exact ha
        · exact absurd ⟨h1.1, h1.2, hu, ha⟩ h
      · rw [if_neg hu]
    simp only [hscr]
  · rw [if_neg h1]

/-- C7, counterexample.  The claim's "only if the list holds fewer than 4
candidates after the four spatial steps" bound does not exist in the code:
with all four spatial neighbours available and pairwise different (the list
holds 4 candidates after the spatial steps), maximum 6 and the feature
enabled, the sub-block temporal candidate is still inserted, at slot 4. -/
theorem atmvp_inserted_with_four_spatial_counterexample :
    ((getInterMergeCandidates mergeInputC7ctr zeroMergeCtx).mvFieldNeighbours 0).mv.hor = 1 ∧
    ((getInterMergeCandidates mergeInputC7ctr zeroMergeCtx).mvFieldNeighbours 2).mv.hor = 2 ∧
    ((getInterMergeCandidates mergeInputC7ctr zeroMergeCtx).mvFieldNeighbours 4).mv.hor = 3 ∧
    ((getInterMergeCandidates mergeInputC7ctr zeroMergeCtx).mvFieldNeighbours 6).mv.hor = 4 ∧
    (getInterMergeCandidates mergeInputC7ctr zeroMergeCtx).mrgTypeNeighbours 0 = MRG_TYPE_DEFAULT_N ∧
    (getInterMergeCandidates mergeInputC7ctr zeroMergeCtx).mrgTypeNeighbours 1 = MRG_TYPE_DEFAULT_N ∧
    (getInterMergeCandidates mergeInputC7ctr zeroMergeCtx).mrgTypeNeighbours 2 = MRG_TYPE_DEFAULT_N ∧
    (getInterMergeCandidates mergeInputC7ctr zeroMergeCtx).mrgTypeNeighbours 3 = MRG_TYPE_DEFAULT_N ∧
    (getInterMergeCandidates mergeInputC7ctr zeroMergeCtx).mrgTypeNeighbours 4 = MRG_TYPE_SUBPU_ATMVP := by
  decide

/-- C7 (amended).  In a full derivation (`mrgCandIdx = -1`), the sub-block
temporal candidate is inserted right after the four spatial steps whenever
the sequence enables sub-PU MVP and ATMVP, the slice enables TMVP, the
derivation succeeds, and the list is not yet at the signalled maximum (no
`< 4` bound exists); it is tagged `MRG_TYPE_SUBPU_ATMVP` at the insertion
slot.  Conversely, when the sequence/slice gating fails or the derivation
fails, no slot of the list carries the sub-block temporal tag. -/
theorem atmvp_insert_condition (inp : MergeInput) (mrgCtx : MergeCtx)
    (hidx : inp.mrgCandIdx = -1) (hmax : 1 ≤ inp.maxNumMergeCand) :
    (∀ s mi, mergeSpatialPhase inp (mergeCtxInit inp.maxNumMergeCand mrgCtx) = .ok s →
      inp.enableSubPuMvp = true → inp.tmvpEnabled = true → inp.useATMVP = true →
      inp.atmvp = some mi →
      (getInterMergeCandidates inp mrgCtx).mrgTypeNeighbours s.2 = MRG_TYPE_SUBPU_ATMVP) ∧
    (¬(inp.enableSubPuMvp = true ∧ inp.tmvpEnabled = true ∧
        inp.useATMVP = true ∧ inp.atmvp ≠ none) →
      ∀ i, i < inp.maxNumMergeCand →
        (getInterMergeCandidates inp mrgCtx).mrgTypeNeighbours i = MRG_TYPE_DEFAULT_N) := by
  constructor
  · intro s mi hsp hE hT hU hA
    have hcnt : s.2 < inp.maxNumMergeCand := by
      rcases mergeSpatialPhase_cases inp (mergeCtxInit inp.maxNumMergeCand mrgCtx) hmax with
        ⟨c, he, _, _⟩ | ⟨s1, he, _, _, hb⟩
      · rw [he] at hsp
        cases hsp
      · rw [he] at hsp
        cases hsp
        exact hb
    unfold getInterMergeCandidates
    rw [hsp]
    unfold mergeRestPhase
    rcases atmvpStep_insert inp s mi hE hT hU hA hidx with ⟨he, hful⟩ | ⟨he, hful⟩
    · simp only [he, estep_error, mergeFinalize_error]
      rw [insertAtmvp_mrgType]
      exact Function.update_same _ _ _
    · simp only [he, estep_ok]
      rw [mergeFinalize_tail_mrgType inp ((insertAtmvp inp.isInterB mi s.2 s.1, s.2 + 1), some s.2)
        (by simp only; omega)]
      simp only
      rw [insertAtmvp_mrgType]
      exact Function.update_same _ _ _
  · intro hneg i hi
    unfold getInterMergeCandidates
    rcases mergeSpatialPhase_cases inp (mergeCtxInit inp.maxNumMergeCand mrgCtx) hmax with
      ⟨c, he, _, hm⟩ | ⟨s1, he, _, hm, hb⟩
    · rw [he, hm]
      exact mergeCtxInit_mrgType _ _ _ hi
    · rw [he]
      dsimp only
      unfold mergeRestPhase
      rw [atmvpStep_skip inp s1 hneg]
      simp only [estep_ok]
      rw [mergeFinalize_tail_mrgType inp (s1, none) hb, hm]
      exact mergeCtxInit_mrgType _ _ _ hi

/-- Witness for amended C7: the inserted tag at slot 4 of the counterexample
input, and the absence of the tag when the feature gating fails. -/
theorem atmvp_insert_condition_witness :
    (getInterMergeCandidates mergeInputC7ctr zeroMergeCtx).mrgTypeNeighbours 4 =
      MRG_TYPE_SUBPU_ATMVP ∧
    (getInterMergeCandidates (mergeInputOnlyA1 3 1 miA1C8) zeroMergeCtx).mrgTypeNeighbours 1 =
      MRG_TYPE_DEFAULT_N := by
  constructor
  · have hok : Except.map Prod.snd
        (mergeSpatialPhase mergeInputC7ctr (mergeCtxInit mergeInputC7ctr.maxNumMergeCand zeroMergeCtx)) =
        .ok 4 := by rfl
    cases hsp : mergeSpatialPhase mergeInputC7ctr
        (mergeCtxInit mergeInputC7ctr.maxNumMergeCand zeroMergeCtx) with
    | error c =>
      rw [hsp] at hok
      cases hok
    | ok s =>
      rw [hsp] at hok
      have h4 : s.2 = 4 := by
        simpa [Except.map] using hok
      have h := (atmvp_insert_condition mergeInputC7ctr zeroMergeCtx rfl (by decide)).1
        s ⟨1, ⟨7, 7⟩, 0, ⟨0, 0⟩, -1⟩ hsp rfl rfl rfl rfl
      rw [h4] at h
      exact h
  · exact (atmvp_insert_condition (mergeInputOnlyA1 3 1 miA1C8) zeroMergeCtx rfl (by decide)).2
      (by decide) 1 (by decide)

theorem zeroFillWrite_below (b : Bool) (addr : Nat) (r : Int) (c : MergeCtx)
    (k : Nat) (hk : k ≠ addr) :
    (zeroFillWrite b addr r c).interDirNeighbours k = c.interDirNeighbours k ∧
    (zeroFillWrite b addr r c).mvFieldNeighbours (2 * k) = c.mvFieldNeighbours (2 * k) ∧
    (zeroFillWrite b addr r c).mvFieldNeighbours (2 * k + 1) = c.mvFieldNeighbours (2 * k + 1) := by
  unfold zeroFillWrite
  have h1 : 2 * k ≠ 2 * addr := by omega
  have h2 : 2 * k + 1 ≠ 2 * addr := by omega
  have h3 : 2 * k + 1 ≠ 2 * addr + 1 := by omega
  have h4 : 2 * k ≠ 2 * addr + 1 := by omega
  split
  · exact ⟨by simp [Function.update_apply, hk], by simp [Function.update_apply, h1, h4],
      by simp [Function.update_apply, h2, h3]⟩
  · exact ⟨by simp [Function.update_apply, hk], by simp [Function.update_apply, h1],
      by simp [Function.update_apply, h2]⟩

theorem zeroFillWrite_at (b : Bool) (addr : Nat) (r : Int) (c : MergeCtx) :
    (zeroFillWrite b addr r c).interDirNeighbours addr = (if b then 3 else 1) ∧
    (zeroFillWrite b addr r c).mvFieldNeighbours (2 * addr) = ⟨⟨0, 0⟩, r⟩ := by
  unfold zeroFillWrite
  have h4 : 2 * addr ≠ 2 * addr + 1 := by omega
  split
  · exact ⟨by simp [Function.update_apply], by simp [Function.update_apply, h4]⟩
  · exact ⟨by simp [Function.update_apply], by simp [Function.update_apply]⟩

theorem zeroFillLoop_fills (b : Bool) (maxN : Nat) (n : Int) :
    ∀ (fuel : Nat) (c : MergeCtx) (addr j : Nat) (r refcnt : Int),
      (((j : Int) < n ∧ r = (j : Int) ∧ refcnt = (j : Int)) ∨
        (n ≤ (j : Int) ∧ r = 0 ∧ refcnt = n - 1)) →
      (∀ k, k < addr →
        (zeroFillLoop b maxN n fuel c addr r refcnt).1.interDirNeighbours k =
          c.interDirNeighbours k ∧
        (zeroFillLoop b maxN n fuel c addr r refcnt).1.mvFieldNeighbours (2 * k) =
          c.mvFieldNeighbours (2 * k) ∧
        (zeroFillLoop b maxN n fuel c addr r refcnt).1.mvFieldNeighbours (2 * k + 1) =
          c.mvFieldNeighbours (2 * k + 1)) ∧
      (∀ k, addr ≤ k → k < addr + fuel → k < maxN →
        (zeroFillLoop b maxN n fuel c addr r refcnt).1.interDirNeighbours k =
          (if b then 3 else 1) ∧
        (zeroFillLoop b maxN n fuel c addr r refcnt).1.mvFieldNeighbours (2 * k) =
          ⟨⟨0, 0⟩, if ((j + (k - addr) : Nat) : Int) < n then ((j + (k - addr) : Nat) : Int) else 0⟩) := by
  intro fuel
  induction fuel with
  | zero =>
    intro c addr j r refcnt hinv
    exact ⟨fun k hk => ⟨rfl, rfl, rfl⟩, fun k hk1 hk2 hk3 => absurd hk2 (by omega)⟩
  | succ m ih =>
    intro c addr j r refcnt hinv
    unfold zeroFillLoop
    by_cases ha : addr < maxN
    case neg =>
      rw [if_neg ha]
      exact ⟨fun k hk => ⟨rfl, rfl, rfl⟩, fun k hk1 hk2 hk3 => absurd hk3 (by omega)⟩
    case pos =>
      rw [if_pos ha]
      have hrval : r = (if ((j + (addr - addr) : Nat) : Int) < n
          then ((j + (addr - addr) : Nat) : Int) else 0) := by
        simp only [Nat.sub_self, Nat.add_zero]
        rcases hinv with ⟨h1, h2, h3⟩ | ⟨h1, h2, h3⟩
        · rw [if_pos h1]
          exact h2
        · rw [if_neg (by omega)]
          exact h2
      have hmain : ∀ (r2 refcnt2 : Int),
          ((((j + 1 : Nat) : Int) < n ∧ r2 = ((j + 1 : Nat) : Int) ∧ refcnt2 = ((j + 1 : Nat) : Int)) ∨
            (n ≤ ((j + 1 : Nat) : Int) ∧ r2 = 0 ∧ refcnt2 = n - 1)) →
          (∀ k, k < addr →
            (zeroFillLoop b maxN n m (zeroFillWrite b addr r c) (addr + 1) r2 refcnt2).1.interDirNeighbours k =
              c.interDirNeighbours k ∧
            (zeroFillLoop b maxN n m (zeroFillWrite b addr r c) (addr + 1) r2 refcnt2).1.mvFieldNeighbours (2 * k) =
              c.mvFieldNeighbours (2 * k) ∧
            (zeroFillLoop b maxN n m (zeroFillWrite b addr r c) (addr + 1) r2 refcnt2).1.mvFieldNeighbours (2 * k + 1) =
              c.mvFieldNeighbours (2 * k + 1)) ∧
          (∀ k, addr ≤ k → k < addr + (m + 1) → k < maxN →
            (zeroFillLoop b maxN n m (zeroFillWrite b addr r c) (addr + 1) r2 refcnt2).1.interDirNeighbours k =
              (if b then 3 else 1) ∧
            (zeroFillLoop b maxN n m (zeroFillWrite b addr r c) (addr + 1) r2 refcnt2).1.mvFieldNeighbours (2 * k) =
              ⟨⟨0, 0⟩, if ((j + (k - addr) : Nat) : Int) < n then ((j + (k - addr) : Nat) : Int) else 0⟩) := by
        intro r2 refcnt2 hinv2
        have hrec := ih (zeroFillWrite b addr r c) (addr + 1) (j + 1) r2 refcnt2 hinv2
        constructor
        · intro k hk
          have h1 := hrec.1 k (by omega)
          have h2 := zeroFillWrite_below b addr r c k (by omega)
          exact ⟨h1.1.trans h2.1, h1.2.1.trans h2.2.1, h1.2.2.trans h2.2.2⟩
        · intro k hk1 hk2 hk3
          by_cases hke : k = addr
          · rw [hke]
            have h1 := hrec.1 addr (by omega)
            have h2 := zeroFillWrite_at b addr r c
            refine ⟨h1.1.trans h2.1, ?_⟩
            rw [h1.2.1, h2.2, hrval]
          · have h1 := hrec.2 k (by omega) (by omega) hk3
            refine ⟨h1.1, ?_⟩
            rw [h1.2]
            have heq : (j + 1 + (k - (addr + 1)) : Nat) = (j + (k - addr) : Nat) := by omega
            rw [heq]
      by_cases hr : refcnt = n - 1
      · rw [if_pos hr]
        refine hmain 0 refcnt (Or.inr ⟨?_, rfl, hr⟩)
        rcases hinv with ⟨h1, h2, h3⟩ | ⟨h1, h2, h3⟩
        · omega
        · omega
      · rw [if_neg hr]
        refine hmain (r + 1) (refcnt + 1) (Or.inl ⟨?_, ?_, ?_⟩)
        · rcases hinv with ⟨h1, h2, h3⟩ | ⟨h1, h2, h3⟩
          · omega
          · omega
        · rcases hinv with ⟨h1, h2, h3⟩ | ⟨h1, h2, h3⟩
          · omega
          · omega
        · rcases hinv with ⟨h1, h2, h3⟩ | ⟨h1, h2, h3⟩
          · omega
          · omega

theorem mergeOnlyA1_spatial (maxN n : Nat) (m : MotionInfo) (mrgCtx : MergeCtx)
    (h2 : ¬((1 : Nat) = maxN)) :
    mergeSpatialPhase (mergeInputOnlyA1 maxN n m) (mergeCtxInit maxN mrgCtx) =
      .ok (insertSpatial false m 0 (mergeCtxInit maxN mrgCtx), 1) := by
  unfold mergeSpatialPhase
  rw [show spatialStep (mergeInputOnlyA1 maxN n m) (mergeInputOnlyA1 maxN n m).a1
      (fun _ => true) (mergeCtxInit maxN mrgCtx, 0) =
      .ok (insertSpatial false m 0 (mergeCtxInit maxN mrgCtx), 1) from rfl]
  simp only [estep_ok]
  rw [show checkFull (mergeInputOnlyA1 maxN n m).maxNumMergeCand
      (insertSpatial false m 0 (mergeCtxInit maxN mrgCtx), 1) =
      .ok (insertSpatial false m 0 (mergeCtxInit maxN mrgCtx), 1) from if_neg h2]
  simp only [estep_ok]
  rw [show spatialStep (mergeInputOnlyA1 maxN n m) (mergeInputOnlyA1 maxN n m).b1
      (fun mi => diffFrom (mergeInputOnlyA1 maxN n m).a1 mi)
      (insertSpatial false m 0 (mergeCtxInit maxN mrgCtx), 1) =
      .ok (insertSpatial false m 0 (mergeCtxInit maxN mrgCtx), 1) from rfl]
  simp only [estep_ok]
  rw [show checkFull (mergeInputOnlyA1 maxN n m).maxNumMergeCand
      (insertSpatial false m 0 (mergeCtxInit maxN mrgCtx), 1) =
      .ok (insertSpatial false m 0 (mergeCtxInit maxN mrgCtx), 1) from if_neg h2]
  simp only [estep_ok]
  rw [show spatialStep (mergeInputOnlyA1 maxN n m) (mergeInputOnlyA1 maxN n m).b0
      (fun mi => diffFrom (mergeInputOnlyA1 maxN n m).b1 mi)
      (insertSpatial false m 0 (mergeCtxInit maxN mrgCtx), 1) =
      .ok (insertSpatial false m 0 (mergeCtxInit maxN mrgCtx), 1) from rfl]
  simp only [estep_ok]
  rw [show checkFull (mergeInputOnlyA1 maxN n m).maxNumMergeCand
      (insertSpatial false m 0 (mergeCtxInit maxN mrgCtx), 1) =
      .ok (insertSpatial false m 0 (mergeCtxInit maxN mrgCtx), 1) from if_neg h2]
  simp only [estep_ok]
  rw [show spatialStep (mergeInputOnlyA1 maxN n m) (mergeInputOnlyA1 maxN n m).a0
      (fun mi => diffFrom (mergeInputOnlyA1 maxN n m).a1 mi)
      (insertSpatial false m 0 (mergeCtxInit maxN mrgCtx), 1) =
      .ok (insertSpatial false m 0 (mergeCtxInit maxN mrgCtx), 1) from rfl]
  simp only [estep_ok]
  exact if_neg h2

theorem mergeOnlyA1_run (maxN n : Nat) (m : MotionInfo) (mrgCtx : MergeCtx)
    (h2 : ¬((1 : Nat) = maxN)) :
    getInterMergeCandidates (mergeInputOnlyA1 maxN n m) mrgCtx =
      { (zeroFillLoop false maxN (n : Int) (maxN - 1)
          (insertSpatial false m 0 (mergeCtxInit maxN mrgCtx)) 1 0 0).1 with
        numValidMergeCand :=
          (zeroFillLoop false maxN (n : Int) (maxN - 1)
            (insertSpatial false m 0 (mergeCtxInit maxN mrgCtx)) 1 0 0).2 } := by
  show (match mergeSpatialPhase (mergeInputOnlyA1 maxN n m) (mergeCtxInit maxN mrgCtx) with
    | .error c => c
    | .ok s => mergeRestPhase (mergeInputOnlyA1 maxN n m) s) = _
  rw [mergeOnlyA1_spatial maxN n m mrgCtx h2]
  show mergeRestPhase (mergeInputOnlyA1 maxN n m)
      (insertSpatial false m 0 (mergeCtxInit maxN mrgCtx), 1) = _
  unfold mergeRestPhase
  rw [show atmvpStep (mergeInputOnlyA1 maxN n m)
      (insertSpatial false m 0 (mergeCtxInit maxN mrgCtx), 1) =
      .ok ((insertSpatial false m 0 (mergeCtxInit maxN mrgCtx), 1), none) from rfl,
    estep_ok]
  unfold mergeTail
  rw [show b2Step (mergeInputOnlyA1 maxN n m)
      ((insertSpatial false m 0 (mergeCtxInit maxN mrgCtx), 1), (none : Option Nat)).1 =
      .ok (insertSpatial false m 0 (mergeCtxInit maxN mrgCtx), 1) from rfl]
  simp only [estep_ok]
  rw [show checkFull (mergeInputOnlyA1 maxN n m).maxNumMergeCand
      (insertSpatial false m 0 (mergeCtxInit maxN mrgCtx), 1) =
      .ok (insertSpatial false m 0 (mergeCtxInit maxN mrgCtx), 1) from if_neg h2]
  simp only [estep_ok]
  rw [show tmvpMergeStep (mergeInputOnlyA1 maxN n m)
      ((insertSpatial false m 0 (mergeCtxInit maxN mrgCtx), 1), (none : Option Nat)).2
      (insertSpatial false m 0 (mergeCtxInit maxN mrgCtx), 1) =
      checkFull (mergeInputOnlyA1 maxN n m).maxNumMergeCand
        (insertSpatial false m 0 (mergeCtxInit maxN mrgCtx), 1) from rfl]
  rw [show checkFull (mergeInputOnlyA1 maxN n m).maxNumMergeCand
      (insertSpatial false m 0 (mergeCtxInit maxN mrgCtx), 1) =
      .ok (insertSpatial false m 0 (mergeCtxInit maxN mrgCtx), 1) from if_neg h2]
  simp only [estep_ok]
  have hps : pairwiseStep (mergeInputOnlyA1 maxN n m)
      (insertSpatial false m 0 (mergeCtxInit maxN mrgCtx), 1) =
      .ok (insertSpatial false m 0 (mergeCtxInit maxN mrgCtx), 1) := by
    unfold pairwiseStep
    dsimp only
    norm_num
    exact if_neg h2
  rw [hps]
  rfl

/-- Claim C8 counterexample: in the C8 scenario with signalled maximum 5 and
N = 2 reference pictures, the zero-motion fills at slots 1..4 carry reference
indices 0, 1, 0, 0 — the index does not cycle 0..N-1: the cycling rule
predicts (4 - 1) % 2 = 1 at slot 4, but the source resets `r` to 0 after the
first pass and never advances it again (UnitTools.cpp:1098-1107). -/
theorem mergeList_fill_not_cycling_counterexample :
    ((getInterMergeCandidates (mergeInputOnlyA1 5 2 miA1C8) zeroMergeCtx).mvFieldNeighbours 2).refIdx = 0 ∧
    ((getInterMergeCandidates (mergeInputOnlyA1 5 2 miA1C8) zeroMergeCtx).mvFieldNeighbours 4).refIdx = 1 ∧
    ((getInterMergeCandidates (mergeInputOnlyA1 5 2 miA1C8) zeroMergeCtx).mvFieldNeighbours 6).refIdx = 0 ∧
    ((getInterMergeCandidates (mergeInputOnlyA1 5 2 miA1C8) zeroMergeCtx).mvFieldNeighbours 8).refIdx = 0 ∧
    ¬(((getInterMergeCandidates (mergeInputOnlyA1 5 2 miA1C8) zeroMergeCtx).mvFieldNeighbours 8).refIdx =
        (((4 - 1) % 2 : Nat) : Int)) := by
  decide

/-- Claim C8 (amended): in the only-A1 scenario (left neighbour list-0,
vector (4, 0), refIdx 0; every other candidate source off), candidate 0 is
that exact tuple, the list is filled to the signalled maximum, and every
remaining slot is a zero-motion fill whose reference index runs 0, 1, ...,
N-1 once and is 0 from then on (it does not restart the cycle: after `r` is
reset, `refcnt == iNumRefIdx - 1` keeps holding, so `r` stays 0). -/
theorem mergeList_onlyA1_fill_pattern (maxN n : Nat) (mrgCtx : MergeCtx)
    (hmax : 1 ≤ maxN) (hn : 1 ≤ n) :
    (getInterMergeCandidates (mergeInputOnlyA1 maxN n miA1C8) mrgCtx).interDirNeighbours 0 = 1 ∧
    (getInterMergeCandidates (mergeInputOnlyA1 maxN n miA1C8) mrgCtx).mvFieldNeighbours 0 = ⟨⟨4, 0⟩, 0⟩ ∧
    (getInterMergeCandidates (mergeInputOnlyA1 maxN n miA1C8) mrgCtx).numValidMergeCand = maxN ∧
    ∀ k, 1 ≤ k → k < maxN →
      (getInterMergeCandidates (mergeInputOnlyA1 maxN n miA1C8) mrgCtx).interDirNeighbours k = 1 ∧
      (getInterMergeCandidates (mergeInputOnlyA1 maxN n miA1C8) mrgCtx).mvFieldNeighbours (2 * k) =
        ⟨⟨0, 0⟩, if ((k - 1 : Nat) : Int) < (n : Int) then ((k - 1 : Nat) : Int) else 0⟩ := by
  by_cases h1 : (1 : Nat) = maxN
  case pos =>
    have hrun : getInterMergeCandidates (mergeInputOnlyA1 1 n miA1C8) mrgCtx =
        insertSpatial false miA1C8 0 (mergeCtxInit 1 mrgCtx) := rfl
    subst h1
    rw [hrun]
    exact ⟨rfl, rfl, rfl, fun k hk1 hk2 => absurd hk2 (by omega)⟩
  case neg =>
    have hrun := mergeOnlyA1_run maxN n miA1C8 mrgCtx h1
    have hfills := zeroFillLoop_fills false maxN (n : Int) (maxN - 1)
      (insertSpatial false miA1C8 0 (mergeCtxInit maxN mrgCtx)) 1 0 0 0
      (Or.inl ⟨by exact_mod_cast hn, by simp, by simp⟩)
    rw [hrun]
    refine ⟨?_, ?_, ?_, ?_⟩
    · exact ((hfills.1 0 (by omega)).1).trans rfl
    · exact ((hfills.1 0 (by omega)).2.1).trans rfl
    · exact zeroFillLoop_addr false maxN (n : Int) (maxN - 1)
        (insertSpatial false miA1C8 0 (mergeCtxInit maxN mrgCtx)) 1 0 0 (by omega)
    · intro k hk1 hk2
      have hf := hfills.2 k hk1 (by omega) hk2
      have hz : (0 + (k - 1) : Nat) = (k - 1 : Nat) := Nat.zero_add _
      rw [hz] at hf
      exact ⟨hf.1.trans rfl, hf.2⟩

/-- Witness for the amended claim C8 at maximum 5, N = 2: candidate 0 is the
A1 tuple and fill slot 4 carries reference index 0 (its offset 3 is beyond
N - 1). -/
theorem mergeList_onlyA1_fill_pattern_witness :
    (getInterMergeCandidates (mergeInputOnlyA1 5 2 miA1C8) zeroMergeCtx).interDirNeighbours 0 = 1 ∧
    (getInterMergeCandidates (mergeInputOnlyA1 5 2 miA1C8) zeroMergeCtx).mvFieldNeighbours 0 = ⟨⟨4, 0⟩, 0⟩ ∧
    (getInterMergeCandidates (mergeInputOnlyA1 5 2 miA1C8) zeroMergeCtx).mvFieldNeighbours 8 =
      ⟨⟨0, 0⟩, if ((4 - 1 : Nat) : Int) < ((2 : Nat) : Int) then ((4 - 1 : Nat) : Int) else 0⟩ :=
  ⟨(mergeList_onlyA1_fill_pattern 5 2 zeroMergeCtx (by decide) (by decide)).1,
   (mergeList_onlyA1_fill_pattern 5 2 zeroMergeCtx (by decide) (by decide)).2.1,
   ((mergeList_onlyA1_fill_pattern 5 2 zeroMergeCtx (by decide) (by decide)).2.2.2
      4 (by decide) (by decide)).2⟩

end IEC
